import Mathlib

/-!
# logcut: selecting the lines of a sorted log by binary search over byte offsets

A shallow embedding of `src/logcut.c` (and of the `MIN`/`MAX` macros of `src/defs.h`).

Modelling conventions.

* A file is a `List Nat` of bytes; `'\n'` is `10`, `'['` is `91`, NUL is `0`.
* `off_t` offsets are natural numbers.  Every offset the program computes is bounded by the
  file length, so the 64-bit sums `off_m + off_n` do not wrap for any file that exists.
* `read(fd, buf, n)` at cursor `pos` on a regular file yields `pread data pos n`; I/O errors are
  outside the model.  `line_next` and `line_head` end with `lseek(fd, off, SEEK_SET)`, so the
  `read_time` that follows them reads at the offset they returned: the cursor is passed
  explicitly as `pos`.
* `buf[sz] = '\0'` followed by a `str*` call sees the bytes before the first NUL: `cstr`.
* `strptime`, `mktime`, `BUFSIZ` and the reference clock `curr_tm` come from outside the
  repository: they are the fields of `Env`.
* Each C loop is a function by recursion on an iteration budget; it answers `none` when the
  budget is exhausted.  `gas` is the budget handed to every loop.
* `val_p` of `search_by_time` is declared without an initialiser; its initial content is the
  parameter `val_p` of the model.
-/

namespace Logcut

/-! ## Data model -/

/-- The fields of `struct tm` that the program reads or writes. -/
structure Tm where
  tm_sec : Int
  tm_min : Int
  tm_hour : Int
  tm_mday : Int
  tm_mon : Int
  tm_year : Int
  tm_wday : Int
  tm_yday : Int
  tm_isdst : Int
deriving DecidableEq, Repr

/-- What the program takes from its platform and its command line. -/
structure Env where
  /-- The constant `BUFSIZ` of `stdio.h`. -/
  BUFSIZ : Nat
  /-- The test `fmt == APACHE_FMT`. -/
  web_log : Bool
  /-- The call `strptime(bufp, fmt, &tm)` for the chosen `fmt`; `none` is a `NULL` result. -/
  strptime : List Nat → Tm → Option Tm
  /-- The call `mktime(&tm)`. -/
  mktime : Tm → Int
  /-- The reference clock `curr_tm`. -/
  curr_tm : Tm

/-- Macro `MIN(m,n)` of `defs.h`. -/
def MIN (m n : Nat) : Nat := if m < n then m else n

/-- Macro `MAX(m,n)` of `defs.h`. -/
def MAX (m n : Nat) : Nat := if m > n then m else n

/-- The bytes `read` delivers: at most `n` bytes of `data` from offset `pos`. -/
def pread (data : List Nat) (pos n : Nat) : List Nat := (data.drop pos).take n

/-- The C string held by a buffer that was terminated with `buf[sz] = 0`. -/
def cstr (buf : List Nat) : List Nat := buf.takeWhile (fun b => b ≠ 0)

/-- Index of the first occurrence of byte `c` in a string: `strchr(s, c) - s`. -/
def strchr : List Nat → Nat → Option Nat
  | [], _ => none
  | b :: s, c => if b = c then some 0 else (strchr s c).map (fun k => k + 1)

/-- Index of the last occurrence of byte `c` in a string: `strrchr(s, c) - s`. -/
def strrchr : List Nat → Nat → Option Nat
  | [], _ => none
  | b :: s, c =>
    match strrchr s c with
    | some k => some (k + 1)
    | none => if b = c then some 0 else none

/-! ## Timestamp extraction -/

/-- The `struct tm` of `read_time` after `memset(&tm, 0, sizeof(tm)); tm.tm_mon = -1;`. -/
def tm_init : Tm := ⟨0, 0, 0, 0, -1, 0, 0, 0, 0⟩

/-- Function `adjust_tm`: fill in the year of a record that carries none. -/
def adjust_tm (curr_tm tm : Tm) : Tm :=
  if tm.tm_year = 0 then
    if curr_tm.tm_mon < tm.tm_mon then { tm with tm_year := curr_tm.tm_year - 1 }
    else { tm with tm_year := curr_tm.tm_year }
  else tm

/-- Function `read_time` with the cursor at `pos`: the pair of the return value and of the
content of `*t` afterwards (`val_p` is its content before the call). -/
def read_time (env : Env) (data : List Nat) (pos : Nat) (val_p : Int) : Int × Int :=
  let buf := pread data pos 39
  if buf.length = 0 then (-1, val_p)
  else
    let s := cstr buf
    let bufp :=
      if env.web_log then
        match strchr s 91 with
        | some k => s.drop (k + 1)
        | none => s
      else s
    match env.strptime bufp tm_init with
    | none => (0, val_p)
    | some tm => (1, env.mktime (adjust_tm env.curr_tm tm))

/-! ## Line boundaries -/

/-- The `while` loop of `line_next`. -/
def line_next_loop (env : Env) (data : List Nat) : Nat → Nat → Option Nat
  | 0, _ => none
  | fuel + 1, off =>
    let buf := pread data off (env.BUFSIZ - 1)
    if 0 < buf.length then
      match strchr (cstr buf) 10 with
      | some k => some (off + k + 1)
      | none => line_next_loop env data fuel (off + buf.length)
    else some off

/-- Function `line_next`: the start of the line after the one holding offset `off`. -/
def line_next (env : Env) (data : List Nat) (gas off : Nat) : Option Nat :=
  line_next_loop env data gas off

/-- The `while` loop of `line_head`; `sz0` is the chunk length of the previous round. -/
def line_head_loop (data : List Nat) : Nat → Nat → Nat → Option Nat
  | 0, _, _ => none
  | fuel + 1, off, sz0 =>
    let r := MAX (off - sz0) 0
    let sz1 := off - r
    if sz1 ≤ 0 then some r
    else
      match strrchr (cstr (pread data r sz1)) 10 with
      | some k => some (r + k + 1)
      | none => line_head_loop data fuel r sz1

/-- Function `line_head`: the last line start at or before offset `off`. -/
def line_head (env : Env) (data : List Nat) (gas off : Nat) : Option Nat :=
  line_head_loop data gas off (env.BUFSIZ - 1)

/-! ## Binary search -/

/-- The first `do ... while (1)` loop of `search_by_time`: step back over lines that do not
parse.  The result is `off_p` and `val_p` at the exit of the loop. -/
def probe_back (env : Env) (data : List Nat) (gas : Nat) : Nat → Nat → Int → Option (Nat × Int)
  | 0, _, _ => none
  | fuel + 1, off_p, val_p =>
    let rv := read_time env data off_p val_p
    if 1 < off_p ∧ rv.1 = 0 then
      match line_head env data gas (off_p - 1) with
      | none => none
      | some q => probe_back env data gas fuel q rv.2
    else some (off_p, rv.2)

/-- The second `do ... while (off_p < off_n)` loop of `search_by_time`: step forward over
lines that do not parse. -/
def probe_fwd (env : Env) (data : List Nat) (gas off_n : Nat) :
    Nat → Nat → Int → Option (Nat × Int)
  | 0, _, _ => none
  | fuel + 1, off_p, val_p =>
    let rv := read_time env data off_p val_p
    if rv.1 = 0 then
      match line_next env data gas off_p with
      | none => none
      | some q => if q < off_n then probe_fwd env data gas off_n fuel q rv.2 else some (q, rv.2)
    else some (off_p, rv.2)

/-- One round of the outer loop of `search_by_time`, entered with `off_m < off_n`: the values
of `off_m`, `off_n` and `val_p` at the end of the round. -/
def search_step (env : Env) (data : List Nat) (gas : Nat) (t : Int) (off_m off_n : Nat)
    (val_p : Int) : Option (Nat × Nat × Int) :=
  match line_head env data gas ((off_m + off_n) / 2) with
  | none => none
  | some p0 =>
    match probe_back env data gas gas p0 val_p with
    | none => none
    | some (off_p, v1) =>
      if t ≤ v1 then some (off_m, off_p, v1)
      else
        match line_next env data gas ((off_m + off_n) / 2) with
        | none => none
        | some p1 =>
          match probe_fwd env data gas off_n gas p1 v1 with
          | none => none
          | some (off_q, v2) => some (off_q, off_n, v2)

/-- The outer `while (off_m < off_n)` loop of `search_by_time`. -/
def search_loop (env : Env) (data : List Nat) (gas : Nat) (t : Int) :
    Nat → Nat → Nat → Int → Option Nat
  | 0, _, _, _ => none
  | fuel + 1, off_m, off_n, val_p =>
    if off_m < off_n then
      match search_step env data gas t off_m off_n val_p with
      | none => none
      | some (m1, n1, v1) => search_loop env data gas t fuel m1 n1 v1
    else some off_m

/-- Function `search_by_time`. -/
def search_by_time (env : Env) (data : List Nat) (gas : Nat) (t : Int) (off_m off_n : Nat)
    (val_p : Int) : Option Nat :=
  search_loop env data gas t gas off_m off_n val_p

/-! ## Extraction -/

/-- The copy loop of `cut_file`; `out` is what has been written so far. -/
def copy_loop (env : Env) (data : List Nat) : Nat → Nat → Nat → List Nat → Option (List Nat)
  | 0, _, _, _ => none
  | fuel + 1, off_b, off_e, out =>
    if off_b < off_e then
      let buf := pread data off_b (MIN (env.BUFSIZ - 1) (off_e - off_b))
      if 0 < buf.length then copy_loop env data fuel (off_b + buf.length) off_e (out ++ buf)
      else some out
    else some out

/-- The two offsets `off_b` and `off_e` that `cut_file` computes; `g1` and `g2` are the initial
contents of `val_p` in the two calls of `search_by_time`. -/
def cut_offsets (env : Env) (data : List Nat) (gas : Nat) (f t : Int) (g1 g2 : Int) :
    Option (Nat × Nat) :=
  match search_by_time env data gas f 0 data.length g1 with
  | none => none
  | some off_b =>
    match search_by_time env data gas t off_b data.length g2 with
    | none => none
    | some off_e => some (off_b, off_e)

/-- Function `cut_file`: the bytes written to `outfd`. -/
def cut_file (env : Env) (data : List Nat) (gas : Nat) (f t : Int) (g1 g2 : Int) :
    Option (List Nat) :=
  match cut_offsets env data gas f t g1 g2 with
  | none => none
  | some (off_b, off_e) => copy_loop env data gas off_b off_e []

/-- The index in `buf` at which `read_time` lets `strptime` start: `bufp - buf`. -/
def bufp_offset (env : Env) (data : List Nat) (pos : Nat) : Nat :=
  if env.web_log then
    match strchr (cstr (pread data pos 39)) 91 with
    | some k => k + 1
    | none => 0
  else 0

/-- The outer loop of `search_by_time` stopped after at most `k` rounds: the values of
`off_m`, `off_n` and `val_p` at that point. -/
def search_rounds (env : Env) (data : List Nat) (gas : Nat) (t : Int) :
    Nat → Nat → Nat → Int → Option (Nat × Nat × Int)
  | 0, off_m, off_n, val_p => some (off_m, off_n, val_p)
  | k + 1, off_m, off_n, val_p =>
    if off_m < off_n then
      match search_step env data gas t off_m off_n val_p with
      | none => none
      | some (m1, n1, v1) => search_rounds env data gas t k m1 n1 v1
    else some (off_m, off_n, val_p)

/-! ## Instances of the platform for concrete runs

`strptime_model` follows the conversions of `strptime(3)` that the three preset formats use
(`%Y %m %d %b %T %H %M %S`, white space and literal bytes); `mktime_model` is `mktime(3)` in
the UTC time zone for fields that are in range. -/

/-- The test `isspace` of the C locale. -/
def isspace (b : Nat) : Bool := b = 32 || (9 ≤ b && b ≤ 13)

/-- The test `isdigit`. -/
def isdigit (b : Nat) : Bool := 48 ≤ b && b ≤ 57

/-- The function `tolower` on ASCII. -/
def tolower (b : Nat) : Nat := if 65 ≤ b ∧ b ≤ 90 then b + 32 else b

/-- Digits of a number of at most `n` digits that stays within `hi`: the value read so far is
`val`. -/
def get_digits (hi : Nat) : Nat → Nat → List Nat → Nat × List Nat
  | 0, val, s => (val, s)
  | n + 1, val, s =>
    match s with
    | [] => (val, s)
    | b :: rest =>
      if val * 10 ≤ hi ∧ isdigit b then get_digits hi n (val * 10 + (b - 48)) rest
      else (val, s)

/-- A number between `lo` and `hi` of at most `n` digits, after optional white space. -/
def get_number (lo hi n : Nat) (s : List Nat) : Option (Nat × List Nat) :=
  match s.dropWhile isspace with
  | [] => none
  | b :: rest =>
    if isdigit b then
      let r := get_digits hi (n - 1) (b - 48) rest
      if lo ≤ r.1 ∧ r.1 ≤ hi then some r else none
    else none

/-- A literal byte of the format. -/
def match_char (c : Nat) (s : List Nat) : Option (List Nat) :=
  match s with
  | [] => none
  | b :: rest => if b = c then some rest else none

/-- A name, compared without regard to case. -/
def match_string (name s : List Nat) : Option (List Nat) :=
  if (s.take name.length).map tolower = name.map tolower ∧ name.length ≤ s.length then
    some (s.drop name.length)
  else none

/-- The English month names, full and abbreviated. -/
def month_names : List (List Nat × List Nat) :=
  [("January".toList.map Char.toNat, "Jan".toList.map Char.toNat),
   ("February".toList.map Char.toNat, "Feb".toList.map Char.toNat),
   ("March".toList.map Char.toNat, "Mar".toList.map Char.toNat),
   ("April".toList.map Char.toNat, "Apr".toList.map Char.toNat),
   ("May".toList.map Char.toNat, "May".toList.map Char.toNat),
   ("June".toList.map Char.toNat, "Jun".toList.map Char.toNat),
   ("July".toList.map Char.toNat, "Jul".toList.map Char.toNat),
   ("August".toList.map Char.toNat, "Aug".toList.map Char.toNat),
   ("September".toList.map Char.toNat, "Sep".toList.map Char.toNat),
   ("October".toList.map Char.toNat, "Oct".toList.map Char.toNat),
   ("November".toList.map Char.toNat, "Nov".toList.map Char.toNat),
   ("December".toList.map Char.toNat, "Dec".toList.map Char.toNat)]

/-- Conversion `%b`: the index of the first month whose name starts the input. -/
def match_month : List (List Nat × List Nat) → Nat → List Nat → Option (Nat × List Nat)
  | [], _, _ => none
  | (full, abbr) :: more, k, s =>
    match match_string full s with
    | some rest => some (k, rest)
    | none =>
      match match_string abbr s with
      | some rest => some (k, rest)
      | none => match_month more (k + 1) s

/-- Conversion `%T`, that is `%H:%M:%S`. -/
def conv_T (s : List Nat) (tm : Tm) : Option (List Nat × Tm) :=
  match get_number 0 23 2 s with
  | none => none
  | some (h, s1) =>
    match match_char 58 s1 with
    | none => none
    | some s2 =>
      match get_number 0 59 2 s2 with
      | none => none
      | some (m, s3) =>
        match match_char 58 s3 with
        | none => none
        | some s4 =>
          match get_number 0 61 2 s4 with
          | none => none
          | some (sec, s5) => some (s5, { tm with tm_hour := h, tm_min := m, tm_sec := sec })

/-- One conversion specification `%c`. -/
def conv (c : Nat) (s : List Nat) (tm : Tm) : Option (List Nat × Tm) :=
  if c = 89 then (get_number 0 9999 4 s).map (fun r => (r.2, { tm with tm_year := r.1 - 1900 }))
  else if c = 109 then (get_number 1 12 2 s).map (fun r => (r.2, { tm with tm_mon := r.1 - 1 }))
  else if c = 100 then (get_number 1 31 2 s).map (fun r => (r.2, { tm with tm_mday := r.1 }))
  else if c = 72 then (get_number 0 23 2 s).map (fun r => (r.2, { tm with tm_hour := r.1 }))
  else if c = 77 then (get_number 0 59 2 s).map (fun r => (r.2, { tm with tm_min := r.1 }))
  else if c = 83 then (get_number 0 61 2 s).map (fun r => (r.2, { tm with tm_sec := r.1 }))
  else if c = 98 then (match_month month_names 0 s).map (fun r => (r.2, { tm with tm_mon := r.1 }))
  else if c = 84 then conv_T s tm
  else none

/-- The function `strptime(s, fmt, &tm)` for the conversions above. -/
def strptime_model : List Nat → List Nat → Tm → Option Tm
  | [], _, tm => some tm
  | [c], s, tm =>
    if isspace c then some tm
    else if c = 37 then none
    else (match_char c s).map (fun _ => tm)
  | c :: d :: fmt, s, tm =>
    if isspace c then strptime_model (d :: fmt) (s.dropWhile isspace) tm
    else if c = 37 then
      match conv d s tm with
      | none => none
      | some (rest, tm1) => strptime_model fmt rest tm1
    else
      match match_char c s with
      | none => none
      | some rest => strptime_model (d :: fmt) rest tm

/-- Days from 1970-01-01 to the civil date `y`-`m`-`d`. -/
def days_from_civil (y m d : Int) : Int :=
  let y1 := if m ≤ 2 then y - 1 else y
  let era := y1 / 400
  let yoe := y1 - era * 400
  let doy := (153 * (if m > 2 then m - 3 else m + 9) + 2) / 5 + d - 1
  let doe := yoe * 365 + yoe / 4 - yoe / 100 + doy
  era * 146097 + doe - 719468

/-- The function `mktime` in the UTC time zone. -/
def mktime_model (tm : Tm) : Int :=
  days_from_civil (tm.tm_year + 1900) (tm.tm_mon + 1) tm.tm_mday * 86400
    + tm.tm_hour * 3600 + tm.tm_min * 60 + tm.tm_sec

/-- The preset `ISO_FMT`. -/
def ISO_FMT : List Nat := "%Y-%m-%d %T".toList.map Char.toNat

/-- The preset `ANSI_FMT`. -/
def ANSI_FMT : List Nat := "%b %d %T".toList.map Char.toNat

/-- The preset `APACHE_FMT`. -/
def APACHE_FMT : List Nat := "%d/%b/%Y:%T".toList.map Char.toNat

/-- A reference clock in February 2006. -/
def clock_feb_2006 : Tm := ⟨0, 0, 12, 13, 1, 106, 1, 43, 0⟩

/-- A run with option `-a` (syslog format) in February 2006; `BUFSIZ` is 1024. -/
def env_syslog : Env := ⟨1024, false, strptime_model ANSI_FMT, mktime_model, clock_feb_2006⟩

/-- The bytes of a string literal. -/
def bytes (s : String) : List Nat := s.toList.map Char.toNat

/-! ## What the claims talk about: lines, records, the expected results -/

/-- No NUL byte occurs in the file. -/
@[reducible] def NoNul (data : List Nat) : Prop := ∀ b ∈ data, b ≠ 0

/-- Offset `p` is 0 or comes right after a `'\n'` byte. -/
@[reducible] def AtLineStart (data : List Nat) (p : Nat) : Prop :=
  p = 0 ∨ data[p - 1]? = some 10

/-- Offset `p` is the offset of a line of the file. -/
@[reducible] def IsLineStart (data : List Nat) (p : Nat) : Prop :=
  p < data.length ∧ AtLineStart data p

/-- Offset `r` is 0, or the length of the file, or comes right after a `'\n'` byte. -/
@[reducible] def IsBoundary (data : List Nat) (r : Nat) : Prop :=
  r = data.length ∨ AtLineStart data r

/-- The offsets of the lines of the file, in file order. -/
def lineStarts (data : List Nat) : List Nat :=
  (List.range data.length).filter (fun p => decide (AtLineStart data p))

/-- The timestamp that `read_time` extracts at offset `p`; `none` when it does not return 1. -/
def tsAt (env : Env) (data : List Nat) (p : Nat) : Option Int :=
  if (read_time env data p 0).1 = 1 then some (read_time env data p 0).2 else none

/-- The timestamps of the lines that parse (the records), in file order. -/
def timestamps (env : Env) (data : List Nat) : List Int :=
  (lineStarts data).filterMap (tsAt env data)

/-- Linear scan over a list of offsets: the first one whose line parses with a timestamp of
at least `T`, and the file length when there is none. -/
def first_at_least (env : Env) (data : List Nat) (T : Int) : List Nat → Nat
  | [] => data.length
  | p :: ps =>
    match tsAt env data p with
    | some a => if T ≤ a then p else first_at_least env data T ps
    | none => first_at_least env data T ps

/-- The offset of the first record at or after offset `low` whose timestamp is at least `T`;
the file length when there is none. -/
def lower_bound (env : Env) (data : List Nat) (T : Int) (low : Nat) : Nat :=
  first_at_least env data T ((lineStarts data).filter (fun p => decide (low ≤ p)))

/-- The first line of a byte sequence: its bytes up to and including the first `'\n'`, all of
them when there is none. -/
def first_line : List Nat → List Nat
  | [] => []
  | b :: rest => if b = 10 then [b] else b :: first_line rest

/-- The lines of a byte sequence in order, the first line being taken off again and again;
`fuel` bounds the number of lines. -/
def split_lines_fuel : Nat → List Nat → List (List Nat)
  | 0, _ => []
  | fuel + 1, d =>
    if d.length = 0 then []
    else first_line d :: split_lines_fuel fuel (d.drop (first_line d).length)

/-- The lines of a file: each ends with its `'\n'`, the last one may lack it.  A file has no
more lines than bytes. -/
def split_lines (data : List Nat) : List (List Nat) := split_lines_fuel data.length data

/-- Concatenation of the lines kept by `keep`, which is asked about the offset of each line;
`off` is the offset of the first line of the list. -/
def select_lines (keep : Nat → Bool) : Nat → List (List Nat) → List Nat
  | _, [] => []
  | off, l :: ls => (if keep off then l else []) ++ select_lines keep (off + l.length) ls

/-- The line at offset `p` is a record whose timestamp `ts` satisfies `f ≤ ts < t`. -/
def in_range (env : Env) (data : List Nat) (f t : Int) (p : Nat) : Bool :=
  match tsAt env data p with
  | some a => decide (f ≤ a ∧ a < t)
  | none => false

/-- The number of records of the file that start before offset `r`: the rank of the record at
`r` among the records. -/
def record_rank (env : Env) (data : List Nat) (r : Nat) : Nat :=
  ((lineStarts data).filter (fun p => decide (p < r) && (tsAt env data p).isSome)).length

/-- The lines of the file whose timestamp lies in `[f, t)`, concatenated in file order. -/
def lines_in_range (env : Env) (data : List Nat) (f t : Int) : List Nat :=
  select_lines (in_range env data f t) 0 (split_lines data)

/-- The loop invariant of `search_by_time` on a sorted file, for the window that started at
`m0`: `off_m` is a record or has met `off_n`, `off_n` is the end of the file or a record at or
after the target, and every record from `m0` up to `off_m` is before the target. -/
def SearchInv (env : Env) (data : List Nat) (T : Int) (m0 m n : Nat) : Prop :=
  m0 ≤ m ∧ m ≤ n ∧ n ≤ data.length ∧
  (m = n ∨ (IsLineStart data m ∧ (tsAt env data m).isSome)) ∧
  (n = data.length ∨ (IsLineStart data n ∧ ∃ a, tsAt env data n = some a ∧ T ≤ a)) ∧
  (∀ p, IsLineStart data p → m0 ≤ p → p < m → ∀ a, tsAt env data p = some a → a < T)

/-- The window of `search_by_time` on a file in which no line that fails to parse starts at
offset 1: `off_m` has met `off_n`, or is 0, or is a record, and `off_n` is the end of the file
or a line start that is 0 or a record. -/
def WindowInv (env : Env) (data : List Nat) (m n : Nat) : Prop :=
  m ≤ n ∧ n ≤ data.length ∧
  (m = n ∨ m = 0 ∨ (IsLineStart data m ∧ (tsAt env data m).isSome)) ∧
  (n = data.length ∨ (AtLineStart data n ∧ (n = 0 ∨ (tsAt env data n).isSome)))

/-! ## Example files -/

/-- Seconds since the epoch of `hh`:00:00 on 1 February 2006. -/
def feb1 (hh : Int) : Int := mktime_model ⟨0, 0, hh, 1, 1, 106, 0, 0, 0⟩

/-- Five syslog records, one per hour from 00:00 to 04:00. -/
def log5 : List Nat :=
  bytes ("Feb  1 00:00:00 a\nFeb  1 01:00:00 b\nFeb  1 02:00:00 c\n" ++
    "Feb  1 03:00:00 d\nFeb  1 04:00:00 e\n")

/-- A line that does not parse, then two syslog records. -/
def log_noise_first : List Nat := bytes "x\nFeb  1 05:00:00 a\nFeb  1 07:00:00 b\n"

/-- Two records with one blank and one malformed line between them, and a last line without
newline. -/
def log_noise_between : List Nat :=
  bytes "Feb  1 05:00:00 a\n\n  at foo(bar)\nFeb  1 07:00:00 b"

/-- The two records of `log_noise_between` alone. -/
def log_two_records : List Nat := bytes "Feb  1 05:00:00 a\nFeb  1 07:00:00 b"

/-- A run like `env_syslog` on a platform whose `BUFSIZ` is 4: chunks of 3 bytes. -/
def env_small : Env := ⟨4, false, strptime_model ANSI_FMT, mktime_model, clock_feb_2006⟩

/-- A run with option `-w` (web access format) in February 2006. -/
def env_web : Env := ⟨1024, true, strptime_model APACHE_FMT, mktime_model, clock_feb_2006⟩

/-- A run with option `-i` (ISO format) in February 2006. -/
def env_iso : Env := ⟨1024, false, strptime_model ISO_FMT, mktime_model, clock_feb_2006⟩

/-- A header line that does not parse and is longer than the rest of the file, then one
syslog record. -/
def log_header : List Nat :=
  bytes "# log opened, rotation weekly, host alpha\nFeb  1 05:00:00 a\n"

/-- A line of a web access log. -/
def web_line : List Nat :=
  bytes "10.0.0.1 - - [10/Jan/2006:01:02:03 +0000] \"GET / HTTP/1.0\" 200 5\n"

/-- A line of a web access log whose client address is so long that the `'['` is byte 44. -/
def web_long : List Nat :=
  bytes ("2001:0db8:85a3:0000:0000:8a2e:0370:7334 - - [10/Jan/2006:01:02:03 +0000] " ++
    "\"GET /\" 200 5\n")

/-- An empty first line, then a web access line with the impossible second 65, placed so that
the 39 bytes read at offset 0 end between the two digits of the second. -/
def web_blank_first : List Nat :=
  bytes "\nhost.example.org -[10/Jan/2006:01:02:65 +0000] x\n"

/-- The file `web_blank_first` followed by two records of 11 and 12 January. -/
def web_blank_first_more : List Nat :=
  bytes ("\nhost.example.org -[10/Jan/2006:01:02:65 +0000] x\n" ++
    "h - - [11/Jan/2006:00:00:00 +0000] y\nh - - [12/Jan/2006:00:00:00 +0000] z\n")

/-- Seconds since the epoch of `hh`:00:00 on `dd` January 2006. -/
def jan (dd hh : Int) : Int := mktime_model ⟨0, 0, hh, dd, 0, 106, 0, 0, 0⟩

/-- A syslog record broken after the day, the time standing on the next line. -/
def log_broken_line : List Nat := bytes "Feb  1\n05:00:00 x\n"

/-- The first line of `log_broken_line` followed by another second line. -/
def log_broken_line_other : List Nat := bytes "Feb  1\nrotated log\n"

/-- A short line without `'['`, then a line that starts with `'['`. -/
def web_bracket_next : List Nat := bytes "x\n[10/Jan/2006:01:02:03 +0000] y\n"

/-- Two records in the ISO format. -/
def iso_two_records : List Nat := bytes "2006-02-01 05:00:00 a\n2006-02-01 07:00:00 b\n"

/-- The two records of `iso_two_records` with a blank line between them. -/
def iso_blank_between : List Nat :=
  bytes "2006-02-01 05:00:00 a\n\n2006-02-01 07:00:00 b\n"

/-- Two records of a web access log. -/
def web_two_records : List Nat :=
  bytes "h - - [10/Jan/2006:01:02:03 +0000] a\nh - - [10/Jan/2006:03:02:03 +0000] b\n"

/-- The two records of `web_two_records` with the line `x` between them. -/
def web_short_between : List Nat :=
  bytes "h - - [10/Jan/2006:01:02:03 +0000] a\nx\nh - - [10/Jan/2006:03:02:03 +0000] b\n"

/-- An empty first line and four web access lines; the empty line parses through the 39 bytes
read at offset 0, to the time of the line after it. -/
def web_blank_records : List Nat :=
  bytes ("\nh - - [10/Jan/2006:01:02:06 +0000] a\nh - - [11/Jan/2006:00:00:00 +0000] b\n" ++
    "h - - [12/Jan/2006:00:00:00 +0000] c\nh - - [13/Jan/2006:00:00:00 +0000] d\n")

/-- The file `web_blank_records` with the second line of `web_blank_first` inserted after its
empty first line. -/
def web_blank_noise : List Nat :=
  bytes ("\nhost.example.org -[10/Jan/2006:01:02:65 +0000] x\n" ++
    "h - - [10/Jan/2006:01:02:06 +0000] a\nh - - [11/Jan/2006:00:00:00 +0000] b\n" ++
    "h - - [12/Jan/2006:00:00:00 +0000] c\nh - - [13/Jan/2006:00:00:00 +0000] d\n")

/-- A syslog record whose text contains a `'['`. -/
def log_bracket : List Nat := bytes "Feb  1 05:00:00 h app[7]: x\n"

/-! ## Bytes, chunks and C strings -/


theorem pread_getElem? (data : List Nat) (pos n j : Nat) :
    (pread data pos n)[j]? = if j < n then data[pos + j]? else none := by
  simp [pread, List.getElem?_take, List.getElem?_drop]

theorem pread_length (data : List Nat) (pos n : Nat) :
    (pread data pos n).length = min n (data.length - pos) := by
  simp [pread]

theorem cstr_getElem? {buf : List Nat} {j c : Nat} (h : (cstr buf)[j]? = some c) :
    buf[j]? = some c := by
  obtain ⟨t, ht⟩ := @List.takeWhile_prefix Nat buf (fun b => decide (b ≠ 0))
  have hj : j < (cstr buf).length := by
    by_contra hc
    rw [List.getElem?_eq_none (by omega)] at h
    cases h
  have : buf = cstr buf ++ t := by simpa [cstr] using ht.symm
  rw [this, List.getElem?_append_left hj]
  exact h

theorem cstr_length_le (buf : List Nat) : (cstr buf).length ≤ buf.length := by
  exact (@List.takeWhile_prefix Nat buf (fun b => decide (b ≠ 0))).length_le

theorem cstr_of_no_nul {buf : List Nat} (h : ∀ b ∈ buf, b ≠ 0) : cstr buf = buf := by
  unfold cstr
  rw [List.takeWhile_eq_self_iff]
  intro x hx
  simpa using h x hx

theorem mem_pread {data : List Nat} {pos n b : Nat} (h : b ∈ pread data pos n) : b ∈ data := by
  unfold pread at h
  exact List.mem_of_mem_drop (List.mem_of_mem_take h)

theorem strchr_some {s : List Nat} {c k : Nat} (h : strchr s c = some k) :
    s[k]? = some c ∧ ∀ j, j < k → s[j]? ≠ some c := by
  induction s generalizing k with
  | nil => simp [strchr] at h
  | cons b s ih =>
    unfold strchr at h
    split at h
    · cases h
      subst_vars
      simp
    · rename_i hbc
      cases hs : strchr s c with
      | none => simp [hs] at h
      | some k1 =>
        simp [hs] at h
        subst h
        obtain ⟨h1, h2⟩ := ih hs
        refine ⟨by simpa using h1, ?_⟩
        intro j hj
        cases j with
        | zero => simpa using hbc
        | succ j => simpa using h2 j (by omega)

theorem strchr_none {s : List Nat} {c : Nat} (h : strchr s c = none) (j : Nat) :
    s[j]? ≠ some c := by
  induction s generalizing j with
  | nil => simp
  | cons b s ih =>
    unfold strchr at h
    split at h
    · cases h
    · rename_i hbc
      cases hs : strchr s c with
      | some k1 => simp [hs] at h
      | none =>
        cases j with
        | zero => simpa using hbc
        | succ j => simpa using ih hs j

theorem strrchr_none {s : List Nat} {c : Nat} (h : strrchr s c = none) (j : Nat) :
    s[j]? ≠ some c := by
  induction s generalizing j with
  | nil => simp
  | cons b s ih =>
    unfold strrchr at h
    cases hs : strrchr s c with
    | some k1 => simp [hs] at h
    | none =>
      simp [hs] at h
      cases j with
      | zero => simpa using h
      | succ j => simpa using ih hs j

theorem strrchr_some {s : List Nat} {c k : Nat} (h : strrchr s c = some k) :
    s[k]? = some c ∧ ∀ j, k < j → s[j]? ≠ some c := by
  induction s generalizing k with
  | nil => simp [strrchr] at h
  | cons b s ih =>
    unfold strrchr at h
    cases hs : strrchr s c with
    | some k1 =>
      simp [hs] at h
      subst h
      obtain ⟨h1, h2⟩ := ih hs
      refine ⟨by simpa using h1, ?_⟩
      intro j hj
      cases j with
      | zero => omega
      | succ j => simpa using h2 j (by omega)
    | none =>
      simp [hs] at h
      obtain ⟨hbc, hk⟩ := h
      subst hk
      refine ⟨by simp [hbc], ?_⟩
      intro j hj
      cases j with
      | zero => omega
      | succ j => simpa using strrchr_none hs j

/-! ## The two loops that locate line boundaries -/

theorem cstr_pread {data : List Nat} (h : NoNul data) (pos n : Nat) :
    cstr (pread data pos n) = pread data pos n :=
  cstr_of_no_nul (fun b hb => h b (mem_pread hb))

theorem getElem?_some_lt {data : List Nat} {i c : Nat} (h : data[i]? = some c) :
    i < data.length := by
  by_contra hc
  rw [List.getElem?_eq_none (by omega)] at h
  cases h

theorem line_next_loop_char (env : Env) (data : List Nat) (hbuf : 1 < env.BUFSIZ) :
    ∀ fuel off, off ≤ data.length → data.length - off < fuel →
      ∃ r, line_next_loop env data fuel off = some r ∧
        ((∃ i, off ≤ i ∧ data[i]? = some 10 ∧ r = i + 1 ∧
            (NoNul data → ∀ j, off ≤ j → j < i → data[j]? ≠ some 10)) ∨
         (r = data.length ∧ (NoNul data → ∀ j, off ≤ j → data[j]? ≠ some 10))) := by
  intro fuel
  induction fuel with
  | zero => intro off _ h; omega
  | succ fuel ih =>
    intro off hoff hfuel
    unfold line_next_loop
    simp only []
    have hlen := pread_length data off (env.BUFSIZ - 1)
    by_cases hpos : 0 < (pread data off (env.BUFSIZ - 1)).length
    · rw [if_pos hpos]
      cases hs : strchr (cstr (pread data off (env.BUFSIZ - 1))) 10 with
      | some k =>
        refine ⟨off + k + 1, rfl, Or.inl ⟨off + k, by omega, ?_, rfl, ?_⟩⟩
        · have h1 := cstr_getElem? (strchr_some hs).1
          rw [pread_getElem?] at h1
          split at h1
          · exact h1
          · cases h1
        · intro hn j hj1 hj2
          have h2 := (strchr_some hs).2 (j - off) (by omega)
          rw [cstr_pread hn, pread_getElem?] at h2
          have h1 := cstr_getElem? (strchr_some hs).1
          rw [pread_getElem?] at h1
          split at h1
          · rw [if_pos (by omega)] at h2
            rwa [show off + (j - off) = j by omega] at h2
          · cases h1
      | none =>
        simp only []
        obtain ⟨r, hr, hch⟩ := ih (off + (pread data off (env.BUFSIZ - 1)).length)
          (by rw [hlen]; omega) (by omega)
        refine ⟨r, hr, ?_⟩
        have hbefore : NoNul data → ∀ j, off ≤ j →
            j < off + (pread data off (env.BUFSIZ - 1)).length → data[j]? ≠ some 10 := by
          intro hn j hj1 hj2
          have h2 := strchr_none hs (j - off)
          rw [cstr_pread hn, pread_getElem?, if_pos (by rw [hlen] at hj2; omega)] at h2
          rwa [show off + (j - off) = j by omega] at h2
        rcases hch with ⟨i, hi1, hi2, hi3, hi4⟩ | ⟨hr1, hr2⟩
        · refine Or.inl ⟨i, by omega, hi2, hi3, ?_⟩
          intro hn j hj1 hj2
          by_cases hj : j < off + (pread data off (env.BUFSIZ - 1)).length
          · exact hbefore hn j hj1 hj
          · exact hi4 hn j (by omega) hj2
        · refine Or.inr ⟨hr1, ?_⟩
          intro hn j hj1
          by_cases hj : j < off + (pread data off (env.BUFSIZ - 1)).length
          · exact hbefore hn j hj1 hj
          · exact hr2 hn j (by omega)
    · rw [if_neg hpos]
      have hoffeq : off = data.length := by rw [hlen] at hpos; omega
      refine ⟨off, rfl, Or.inr ⟨hoffeq, ?_⟩⟩
      intro _ j hj
      rw [List.getElem?_eq_none (by omega)]
      simp

theorem line_head_loop_char (data : List Nat) :
    ∀ fuel off sz0, 0 < sz0 → off ≤ data.length → off < fuel →
      ∃ r, line_head_loop data fuel off sz0 = some r ∧
        ((∃ i, i < off ∧ data[i]? = some 10 ∧ r = i + 1 ∧
            (NoNul data → ∀ j, i < j → j < off → data[j]? ≠ some 10)) ∨
         (r = 0 ∧ (NoNul data → ∀ j, j < off → data[j]? ≠ some 10))) := by
  intro fuel
  induction fuel with
  | zero => intro off _ _ _ h; omega
  | succ fuel ih =>
    intro off sz0 hsz hoff hfuel
    unfold line_head_loop
    simp only []
    have hr0 : MAX (off - sz0) 0 = off - sz0 := by
      unfold MAX
      split <;> omega
    rw [hr0]
    by_cases hz : off - (off - sz0) ≤ 0
    · rw [if_pos hz]
      refine ⟨off - sz0, rfl, Or.inr ⟨by omega, ?_⟩⟩
      intro _ j hj
      omega
    · rw [if_neg hz]
      have hget : ∀ j, j < off - (off - sz0) →
          (pread data (off - sz0) (off - (off - sz0)))[j]? = data[off - sz0 + j]? := by
        intro j hj
        rw [pread_getElem?, if_pos hj]
      cases hs : strrchr (cstr (pread data (off - sz0) (off - (off - sz0)))) 10 with
      | some k =>
        have h1 := cstr_getElem? (strrchr_some hs).1
        rw [pread_getElem?] at h1
        split at h1
        · rename_i hk
          refine ⟨off - sz0 + k + 1, rfl, Or.inl ⟨off - sz0 + k, by omega, h1, rfl, ?_⟩⟩
          intro hn j hj1 hj2
          have h2 := (strrchr_some hs).2 (j - (off - sz0)) (by omega)
          rw [cstr_pread hn, hget _ (by omega)] at h2
          rwa [show off - sz0 + (j - (off - sz0)) = j by omega] at h2
        · cases h1
      | none =>
        simp only []
        obtain ⟨r, hr, hch⟩ := ih (off - sz0) (off - (off - sz0)) (by omega) (by omega) (by omega)
        refine ⟨r, hr, ?_⟩
        have hafter : NoNul data → ∀ j, off - sz0 ≤ j → j < off → data[j]? ≠ some 10 := by
          intro hn j hj1 hj2
          have h2 := strrchr_none hs (j - (off - sz0))
          rw [cstr_pread hn, hget _ (by omega)] at h2
          rwa [show off - sz0 + (j - (off - sz0)) = j by omega] at h2
        rcases hch with ⟨i, hi1, hi2, hi3, hi4⟩ | ⟨hr1, hr2⟩
        · refine Or.inl ⟨i, by omega, hi2, hi3, ?_⟩
          intro hn j hj1 hj2
          by_cases hj : j < off - sz0
          · exact hi4 hn j hj1 hj
          · exact hafter hn j (by omega) hj2
        · refine Or.inr ⟨hr1, ?_⟩
          intro hn j hj1
          by_cases hj : j < off - sz0
          · exact hr2 hn j hj
          · exact hafter hn j (by omega) hj1

/-! ## Termination and bounds of the search on any file -/

theorem line_head_le (env : Env) (data : List Nat) (gas off : Nat)
    (hbuf : 1 < env.BUFSIZ) (hoff : off ≤ data.length) (hgas : data.length < gas) :
    ∃ r, line_head env data gas off = some r ∧ r ≤ off := by
  obtain ⟨r, hr, hch⟩ := line_head_loop_char data gas off (env.BUFSIZ - 1) (by omega) hoff
    (by omega)
  refine ⟨r, hr, ?_⟩
  rcases hch with ⟨i, h1, _, h3, _⟩ | ⟨h1, _⟩ <;> omega

theorem line_next_gt (env : Env) (data : List Nat) (gas off : Nat)
    (hbuf : 1 < env.BUFSIZ) (hoff : off ≤ data.length) (hgas : data.length < gas) :
    ∃ r, line_next env data gas off = some r ∧ off ≤ r ∧ r ≤ data.length ∧
      (off < data.length → off < r) := by
  obtain ⟨r, hr, hch⟩ := line_next_loop_char env data hbuf gas off hoff (by omega)
  refine ⟨r, hr, ?_⟩
  rcases hch with ⟨i, h1, h2, h3, _⟩ | ⟨h1, _⟩
  · have := getElem?_some_lt h2
    omega
  · omega

theorem read_time_eof (env : Env) (data : List Nat) (p : Nat) (v : Int)
    (h : data.length ≤ p) : read_time env data p v = (-1, v) := by
  unfold read_time
  have : (pread data p 39).length = 0 := by rw [pread_length]; omega
  simp [this]

theorem read_time_zero_lt (env : Env) (data : List Nat) (p : Nat) (v : Int)
    (h : (read_time env data p v).1 = 0) : p < data.length := by
  by_contra hc
  rw [read_time_eof env data p v (by omega)] at h
  simp at h

theorem probe_back_le (env : Env) (data : List Nat) (gas : Nat)
    (hbuf : 1 < env.BUFSIZ) (hgas : data.length < gas) :
    ∀ fuel p v, p ≤ data.length → p < fuel →
      ∃ q w, probe_back env data gas fuel p v = some (q, w) ∧ q ≤ p := by
  intro fuel
  induction fuel with
  | zero => intro p _ _ h; omega
  | succ fuel ih =>
    intro p v hp hfuel
    unfold probe_back
    simp only []
    by_cases hc : 1 < p ∧ (read_time env data p v).1 = 0
    · rw [if_pos hc]
      obtain ⟨q, hq, hle⟩ := line_head_le env data gas (p - 1) hbuf (by omega) hgas
      rw [hq]
      simp only []
      obtain ⟨q1, w, h1, h2⟩ := ih q (read_time env data p v).2 (by omega) (by omega)
      exact ⟨q1, w, h1, by omega⟩
    · rw [if_neg hc]
      exact ⟨p, _, rfl, le_refl p⟩

theorem probe_fwd_ge (env : Env) (data : List Nat) (gas off_n : Nat)
    (hbuf : 1 < env.BUFSIZ) (hgas : data.length < gas) :
    ∀ fuel p v, p ≤ data.length → data.length - p < fuel →
      ∃ q w, probe_fwd env data gas off_n fuel p v = some (q, w) ∧ p ≤ q ∧ q ≤ data.length := by
  intro fuel
  induction fuel with
  | zero => intro p _ _ h; omega
  | succ fuel ih =>
    intro p v hp hfuel
    unfold probe_fwd
    simp only []
    by_cases hc : (read_time env data p v).1 = 0
    · rw [if_pos hc]
      have hlt := read_time_zero_lt env data p v hc
      obtain ⟨q, hq, h1, h2, h3⟩ := line_next_gt env data gas p hbuf hp hgas
      rw [hq]
      simp only []
      by_cases hn : q < off_n
      · rw [if_pos hn]
        obtain ⟨q1, w, h4, h5, h6⟩ := ih q (read_time env data p v).2 h2 (by have := h3 hlt; omega)
        exact ⟨q1, w, h4, by omega, h6⟩
      · rw [if_neg hn]
        exact ⟨q, _, rfl, h1, h2⟩
    · rw [if_neg hc]
      exact ⟨p, _, rfl, le_refl p, hp⟩

/-- One round of the outer loop, on any file: `off_m` does not decrease, `off_n` does not
increase, both stay within the file, and the window gets strictly smaller. -/
theorem search_step_bounds (env : Env) (data : List Nat) (gas : Nat) (t : Int)
    (hbuf : 1 < env.BUFSIZ) (hgas : data.length < gas) (m n : Nat) (v : Int)
    (hmn : m < n) (hn : n ≤ data.length) :
    ∃ m1 n1 v1, search_step env data gas t m n v = some (m1, n1, v1) ∧
      m ≤ m1 ∧ m1 ≤ data.length ∧ n1 ≤ n ∧ n1 - m1 < n - m := by
  unfold search_step
  have hmid : (m + n) / 2 < n := by omega
  have hmid2 : m ≤ (m + n) / 2 := by omega
  obtain ⟨p0, hp0, hle0⟩ := line_head_le env data gas ((m + n) / 2) hbuf (by omega) hgas
  rw [hp0]
  simp only []
  obtain ⟨q, w, hq, hle1⟩ := probe_back_le env data gas hbuf hgas gas p0 v (by omega) (by omega)
  rw [hq]
  simp only []
  by_cases ht : t ≤ w
  · rw [if_pos ht]
    exact ⟨m, q, w, rfl, le_refl m, by omega, by omega, by omega⟩
  · rw [if_neg ht]
    obtain ⟨p1, hp1, h1, h2, h3⟩ := line_next_gt env data gas ((m + n) / 2) hbuf (by omega) hgas
    rw [hp1]
    simp only []
    obtain ⟨q1, w1, hq1, h4, h5⟩ := probe_fwd_ge env data gas n hbuf hgas gas p1 w h2 (by omega)
    rw [hq1]
    simp only []
    have := h3 (by omega)
    exact ⟨q1, n, w1, rfl, by omega, h5, le_refl n, by omega⟩

/-- The outer loop ends, on any file, with a result between `off_m` and the file length. -/
theorem search_loop_bounds (env : Env) (data : List Nat) (gas : Nat) (t : Int)
    (hbuf : 1 < env.BUFSIZ) (hgas : data.length < gas) :
    ∀ fuel m n v, m ≤ data.length → n ≤ data.length → n - m < fuel →
      ∃ r, search_loop env data gas t fuel m n v = some r ∧ m ≤ r ∧ r ≤ data.length := by
  intro fuel
  induction fuel with
  | zero => intro m n _ _ _ h; omega
  | succ fuel ih =>
    intro m n v hm hn hfuel
    unfold search_loop
    by_cases hmn : m < n
    · rw [if_pos hmn]
      obtain ⟨m1, n1, v1, hs, h1, h2, h3, h4⟩ :=
        search_step_bounds env data gas t hbuf hgas m n v hmn hn
      rw [hs]
      simp only []
      obtain ⟨r, hr, h5, h6⟩ := ih m1 n1 v1 h2 (by omega) (by omega)
      exact ⟨r, hr, by omega, h6⟩
    · rw [if_neg hmn]
      exact ⟨m, rfl, le_refl m, hm⟩

/-! ## Lines and records of a sorted file -/

theorem read_time_cases (env : Env) (data : List Nat) (p : Nat) :
    (data.length ≤ p ∧ ∀ v, read_time env data p v = (-1, v)) ∨
    (p < data.length ∧ ∀ v, read_time env data p v = (0, v)) ∨
    (p < data.length ∧ ∃ a, ∀ v, read_time env data p v = (1, a)) := by
  by_cases hp : data.length ≤ p
  · exact Or.inl ⟨hp, fun v => read_time_eof env data p v hp⟩
  · right
    have hlen : ¬ (pread data p 39).length = 0 := by rw [pread_length]; omega
    unfold read_time
    simp only [if_neg hlen]
    split
    · exact Or.inl ⟨by omega, fun v => rfl⟩
    · exact Or.inr ⟨by omega, _, fun v => rfl⟩

theorem tsAt_some (env : Env) (data : List Nat) (p : Nat) (a : Int)
    (h : tsAt env data p = some a) (v : Int) : read_time env data p v = (1, a) := by
  unfold tsAt at h
  rcases read_time_cases env data p with ⟨_, h1⟩ | ⟨_, h1⟩ | ⟨_, b, h1⟩
  · simp [h1] at h
  · simp [h1] at h
  · simp [h1] at h
    rw [h1, h]

theorem tsAt_none (env : Env) (data : List Nat) (p : Nat)
    (h : tsAt env data p = none) (hp : p < data.length) (v : Int) :
    read_time env data p v = (0, v) := by
  unfold tsAt at h
  rcases read_time_cases env data p with ⟨h0, _⟩ | ⟨_, h1⟩ | ⟨_, b, h1⟩
  · omega
  · exact h1 v
  · simp [h1] at h

theorem tsAt_lt (env : Env) (data : List Nat) (p : Nat) (a : Int)
    (h : tsAt env data p = some a) : p < data.length := by
  unfold tsAt at h
  rcases read_time_cases env data p with ⟨_, h1⟩ | ⟨h0, _⟩ | ⟨h0, _⟩
  · simp [h1] at h
  · exact h0
  · exact h0

theorem line_head_start (env : Env) (data : List Nat) (gas off : Nat)
    (hbuf : 1 < env.BUFSIZ) (hnul : NoNul data) (hoff : off ≤ data.length)
    (hgas : data.length < gas) :
    ∃ r, line_head env data gas off = some r ∧ r ≤ off ∧ AtLineStart data r ∧
      ∀ s, AtLineStart data s → s ≤ off → s ≤ r := by
  obtain ⟨r, hr, hch⟩ := line_head_loop_char data gas off (env.BUFSIZ - 1) (by omega) hoff
    (by omega)
  refine ⟨r, hr, ?_⟩
  rcases hch with ⟨i, h1, h2, h3, h4⟩ | ⟨h1, h2⟩
  · subst h3
    refine ⟨by omega, Or.inr (by simpa using h2), ?_⟩
    intro s hs hle
    rcases hs with hs | hs
    · omega
    · by_contra hc
      exact h4 hnul (s - 1) (by omega) (by have := getElem?_some_lt hs; omega) hs
  · subst h1
    refine ⟨by omega, Or.inl rfl, ?_⟩
    intro s hs hle
    rcases hs with hs | hs
    · omega
    · by_contra hc
      exact h2 hnul (s - 1) (by omega) hs

theorem line_next_start (env : Env) (data : List Nat) (gas off : Nat)
    (hbuf : 1 < env.BUFSIZ) (hnul : NoNul data) (hoff : off < data.length)
    (hgas : data.length < gas) :
    ∃ r, line_next env data gas off = some r ∧ off < r ∧ r ≤ data.length ∧
      (r = data.length ∨ AtLineStart data r) ∧
      ∀ s, AtLineStart data s → off < s → r ≤ s := by
  obtain ⟨r, hr, hch⟩ := line_next_loop_char env data hbuf gas off (by omega) (by omega)
  refine ⟨r, hr, ?_⟩
  rcases hch with ⟨i, h1, h2, h3, h4⟩ | ⟨h1, h2⟩
  · subst h3
    have := getElem?_some_lt h2
    refine ⟨by omega, by omega, Or.inr (Or.inr (by simpa using h2)), ?_⟩
    intro s hs hlt
    rcases hs with hs | hs
    · omega
    · by_contra hc
      exact h4 hnul (s - 1) (by omega) (by omega) hs
  · subst h1
    refine ⟨hoff, le_refl _, Or.inl rfl, ?_⟩
    intro s hs hlt
    rcases hs with hs | hs
    · omega
    · exact absurd hs (h2 hnul (s - 1) (by omega))

theorem mem_lineStarts {data : List Nat} {p : Nat} :
    p ∈ lineStarts data ↔ IsLineStart data p := by
  simp [lineStarts, IsLineStart]

theorem lineStarts_sorted (data : List Nat) :
    (lineStarts data).Pairwise (fun a b => a < b) :=
  (List.pairwise_lt_range data.length).sublist (List.filter_sublist _)

/-- In a list that is both increasing and pairwise related by `R`, an element is related to
every larger one. -/
theorem pairwise_of_lt {R : Nat → Nat → Prop} {l : List Nat}
    (hl : l.Pairwise (fun a b => a < b)) (hR : l.Pairwise R) {p q : Nat}
    (hp : p ∈ l) (hq : q ∈ l) (hpq : p < q) : R p q := by
  induction l with
  | nil => simp at hp
  | cons x xs ih =>
    rw [List.pairwise_cons] at hl hR
    rcases List.mem_cons.mp hp with hp1 | hp1
    · rcases List.mem_cons.mp hq with hq1 | hq1
      · omega
      · rw [hp1]
        exact hR.1 q hq1
    · rcases List.mem_cons.mp hq with hq1 | hq1
      · have := hl.1 p hp1
        omega
      · exact ih hl.2 hR.2 hp1 hq1

theorem sorted_pointwise (env : Env) (data : List Nat)
    (hs : (timestamps env data).Pairwise (fun a b => a ≤ b)) {p q : Nat} {a b : Int}
    (hp : IsLineStart data p) (hq : IsLineStart data q) (hpq : p ≤ q)
    (ha : tsAt env data p = some a) (hb : tsAt env data q = some b) : a ≤ b := by
  rcases Nat.eq_or_lt_of_le hpq with heq | hlt
  · subst heq
    rw [ha] at hb
    cases hb
    exact le_refl a
  · unfold timestamps at hs
    rw [List.pairwise_filterMap] at hs
    exact pairwise_of_lt (lineStarts_sorted data) hs (mem_lineStarts.mpr hp)
      (mem_lineStarts.mpr hq) hlt a (by simp [ha]) b (by simp [hb])

/-- The backward loop on a file without NUL bytes, started at a line start at or after a
record `m`: it stops at the last record at or before its starting point. -/
theorem probe_back_record (env : Env) (data : List Nat) (gas : Nat)
    (hbuf : 1 < env.BUFSIZ) (hnul : NoNul data) (hgas : data.length < gas) (m : Nat)
    (hm : IsLineStart data m) (hmrec : (tsAt env data m).isSome)
    (hone : m = 0 → IsLineStart data 1 → (tsAt env data 1).isSome) :
    ∀ fuel p v, IsLineStart data p → m ≤ p → p < fuel →
      ∃ q a, probe_back env data gas fuel p v = some (q, a) ∧ IsLineStart data q ∧ m ≤ q ∧
        q ≤ p ∧ tsAt env data q = some a ∧
        ∀ s, IsLineStart data s → q < s → s ≤ p → tsAt env data s = none := by
  intro fuel
  induction fuel with
  | zero => intro p _ _ _ h; omega
  | succ fuel ih =>
    intro p v hp hmp hfuel
    unfold probe_back
    simp only []
    cases hts : tsAt env data p with
    | some a =>
      rw [tsAt_some env data p a hts v]
      rw [if_neg (by simp)]
      exact ⟨p, a, rfl, hp, hmp, le_refl p, hts, fun s _ h1 h2 => by omega⟩
    | none =>
      rw [tsAt_none env data p hts hp.1 v]
      have hne : p ≠ m := by
        intro h
        rw [h] at hts
        rw [hts] at hmrec
        simp at hmrec
      have h1p : 1 < p := by
        by_contra hc
        have hp1 : p = 1 := by omega
        have hm0 : m = 0 := by omega
        have := hone hm0 (hp1 ▸ hp)
        rw [← hp1, hts] at this
        simp at this
      rw [if_pos ⟨h1p, rfl⟩]
      obtain ⟨q0, hq0, hle, hst, hmax⟩ :=
        line_head_start env data gas (p - 1) hbuf hnul (by have := hp.1; omega) hgas
      rw [hq0]
      simp only []
      have hmq0 : m ≤ q0 := hmax m hm.2 (by omega)
      obtain ⟨q, a, hq, hqs, hmq, hqle, hqa, hnoise⟩ :=
        ih q0 v ⟨by have := hp.1; omega, hst⟩ hmq0 (by omega)
      refine ⟨q, a, hq, hqs, hmq, by omega, hqa, ?_⟩
      intro s hs h1 h2
      by_cases hsq : s ≤ q0
      · exact hnoise s hs h1 hsq
      · by_cases hsp : s = p
        · rw [hsp]; exact hts
        · have := hmax s hs.2 (by omega)
          omega

/-- The forward loop on a file without NUL bytes, started at a line boundary at or before
`off_n`, which is the end of the file or a record: it stops at the first record it meets, or
at `off_n`. -/
theorem probe_fwd_record (env : Env) (data : List Nat) (gas n : Nat)
    (hbuf : 1 < env.BUFSIZ) (hnul : NoNul data) (hgas : data.length < gas)
    (hn : n ≤ data.length)
    (hnrec : n = data.length ∨ (AtLineStart data n ∧ (tsAt env data n).isSome)) :
    ∀ fuel p v, p ≤ n → (p = data.length ∨ AtLineStart data p) → data.length - p < fuel →
      ∃ q w, probe_fwd env data gas n fuel p v = some (q, w) ∧ p ≤ q ∧ q ≤ n ∧
        (q = n ∨ (IsLineStart data q ∧ (tsAt env data q).isSome)) ∧
        ∀ s, IsLineStart data s → p ≤ s → s < q → tsAt env data s = none := by
  intro fuel
  induction fuel with
  | zero => intro p _ _ _ h; omega
  | succ fuel ih =>
    intro p v hpn hp hfuel
    unfold probe_fwd
    simp only []
    by_cases hpl : p < data.length
    · have hps : AtLineStart data p := by
        rcases hp with hp | hp
        · omega
        · exact hp
      cases hts : tsAt env data p with
      | some a =>
        rw [tsAt_some env data p a hts v]
        rw [if_neg (by simp)]
        exact ⟨p, a, rfl, le_refl p, hpn, Or.inr ⟨⟨hpl, hps⟩, by simp [hts]⟩,
          fun s _ h1 h2 => by omega⟩
      | none =>
        rw [tsAt_none env data p hts hpl v]
        rw [if_pos rfl]
        have hne : p ≠ n := by
          intro h
          rcases hnrec with h1 | ⟨_, h2⟩
          · omega
          · rw [← h, hts] at h2
            simp at h2
        obtain ⟨r, hr, hlt, hrl, hrb, hmin⟩ := line_next_start env data gas p hbuf hnul hpl hgas
        rw [hr]
        simp only []
        have hrn : r ≤ n := by
          rcases hnrec with h1 | ⟨h1, _⟩
          · omega
          · exact hmin n h1 (by omega)
        by_cases hlt2 : r < n
        · rw [if_pos hlt2]
          obtain ⟨q, w, hq, hrq, hqn, hqrec, hnoise⟩ := ih r v hrn hrb (by omega)
          refine ⟨q, w, hq, by omega, hqn, hqrec, ?_⟩
          intro s hs h1 h2
          by_cases hsp : s = p
          · rw [hsp]; exact hts
          · exact hnoise s hs (hmin s hs.2 (by omega)) h2
        · rw [if_neg hlt2]
          refine ⟨r, v, rfl, by omega, hrn, Or.inl (by omega), ?_⟩
          intro s hs h1 h2
          by_cases hsp : s = p
          · rw [hsp]; exact hts
          · have := hmin s hs.2 (by omega)
            omega
    · rw [read_time_eof env data p v (by omega)]
      rw [if_neg (by simp)]
      exact ⟨p, v, rfl, le_refl p, hpn, Or.inl (by omega), fun s hs h1 _ => by
        have := hs.1
        omega⟩

/-- One round of the outer loop keeps `SearchInv` and shrinks the window. -/
theorem search_step_inv (env : Env) (data : List Nat) (gas : Nat) (T : Int)
    (hbuf : 1 < env.BUFSIZ) (hnul : NoNul data) (hgas : data.length < gas)
    (hs : (timestamps env data).Pairwise (fun a b => a ≤ b)) (m0 : Nat)
    (hone : m0 = 0 → IsLineStart data 1 → (tsAt env data 1).isSome)
    (m n : Nat) (v : Int) (hinv : SearchInv env data T m0 m n) (hmn : m < n) :
    ∃ m1 n1 v1, search_step env data gas T m n v = some (m1, n1, v1) ∧
      SearchInv env data T m0 m1 n1 ∧ n1 - m1 < n - m := by
  obtain ⟨h0, h1, h2, h3, h4, h5⟩ := hinv
  have hmrec : IsLineStart data m ∧ (tsAt env data m).isSome := by
    rcases h3 with h3 | h3
    · omega
    · exact h3
  unfold search_step
  obtain ⟨p0, hp0, hle0, hst0, hmax⟩ :=
    line_head_start env data gas ((m + n) / 2) hbuf hnul (by omega) hgas
  rw [hp0]
  simp only []
  have hmp0 : m ≤ p0 := hmax m hmrec.1.2 (by omega)
  obtain ⟨q, a, hq, hqs, hmq, hqle, hqa, hnoise⟩ :=
    probe_back_record env data gas hbuf hnul hgas m hmrec.1 hmrec.2
      (fun hm => hone (by omega)) gas p0 v ⟨by omega, hst0⟩ hmp0 (by omega)
  rw [hq]
  simp only []
  by_cases ht : T ≤ a
  · rw [if_pos ht]
    exact ⟨m, q, a, rfl, ⟨h0, hmq, by omega, Or.inr hmrec, Or.inr ⟨hqs, a, hqa, ht⟩, h5⟩,
      by omega⟩
  · rw [if_neg ht]
    obtain ⟨p1, hp1, hlt1, hle1, hb1, hmin⟩ :=
      line_next_start env data gas ((m + n) / 2) hbuf hnul (by omega) hgas
    rw [hp1]
    simp only []
    have hnrec : n = data.length ∨ (AtLineStart data n ∧ (tsAt env data n).isSome) := by
      rcases h4 with h4 | ⟨h4, b, hb, _⟩
      · exact Or.inl h4
      · exact Or.inr ⟨h4.2, by simp [hb]⟩
    have hp1n : p1 ≤ n := by
      rcases hnrec with h | ⟨h, _⟩
      · omega
      · exact hmin n h (by omega)
    obtain ⟨q1, w, hq1, hpq1, hq1n, hq1rec, hnoise1⟩ :=
      probe_fwd_record env data gas n hbuf hnul hgas h2 hnrec gas p1 a hp1n hb1 (by omega)
    rw [hq1]
    simp only []
    refine ⟨q1, n, w, rfl, ⟨by omega, hq1n, h2, hq1rec, h4, ?_⟩, by omega⟩
    intro s hss hm0s hsq1 b hb
    by_cases hsm : s < m
    · exact h5 s hss hm0s hsm b hb
    · by_cases hsq : s ≤ q
      · have := sorted_pointwise env data hs hss hqs hsq hb hqa
        omega
      · by_cases hsp0 : s ≤ p0
        · rw [hnoise s hss (by omega) hsp0] at hb
          cases hb
        · by_cases hsmid : s ≤ (m + n) / 2
          · have := hmax s hss.2 hsmid
            omega
          · rw [hnoise1 s hss (hmin s hss.2 (by omega)) hsq1] at hb
            cases hb

/-- The outer loop ends with `off_m = off_n` and `SearchInv`. -/
theorem search_loop_inv (env : Env) (data : List Nat) (gas : Nat) (T : Int)
    (hbuf : 1 < env.BUFSIZ) (hnul : NoNul data) (hgas : data.length < gas)
    (hs : (timestamps env data).Pairwise (fun a b => a ≤ b)) (m0 : Nat)
    (hone : m0 = 0 → IsLineStart data 1 → (tsAt env data 1).isSome) :
    ∀ fuel m n v, SearchInv env data T m0 m n → n - m < fuel →
      ∃ r, search_loop env data gas T fuel m n v = some r ∧ SearchInv env data T m0 r r := by
  intro fuel
  induction fuel with
  | zero => intro m n _ _ h; omega
  | succ fuel ih =>
    intro m n v hinv hfuel
    unfold search_loop
    by_cases hmn : m < n
    · rw [if_pos hmn]
      obtain ⟨m1, n1, v1, hstep, hinv1, hlt⟩ :=
        search_step_inv env data gas T hbuf hnul hgas hs m0 hone m n v hinv hmn
      rw [hstep]
      simp only []
      exact ih m1 n1 v1 hinv1 (by omega)
    · rw [if_neg hmn]
      have hle := hinv.2.1
      have hmn2 : m = n := by omega
      subst hmn2
      exact ⟨m, rfl, hinv⟩

/-- The search on a sorted file without NUL bytes, over a window `[m0, length)` that starts at
a record (or is empty): the result is the first record of the window whose timestamp is at
least `T`, or the length of the file. -/
theorem search_sorted (env : Env) (data : List Nat) (gas : Nat) (T : Int) (g : Int)
    (hbuf : 1 < env.BUFSIZ) (hnul : NoNul data) (hgas : data.length < gas)
    (hs : (timestamps env data).Pairwise (fun a b => a ≤ b)) (m0 : Nat)
    (hm0 : m0 = data.length ∨ (IsLineStart data m0 ∧ (tsAt env data m0).isSome))
    (hone : m0 = 0 → IsLineStart data 1 → (tsAt env data 1).isSome) :
    ∃ r, search_by_time env data gas T m0 data.length g = some r ∧ m0 ≤ r ∧
      r ≤ data.length ∧
      (r = data.length ∨ (IsLineStart data r ∧ ∃ a, tsAt env data r = some a ∧ T ≤ a)) ∧
      (∀ p, IsLineStart data p → m0 ≤ p → p < r → ∀ a, tsAt env data p = some a → a < T) := by
  have hm0le : m0 ≤ data.length := by
    rcases hm0 with h | ⟨h, _⟩
    · omega
    · have := h.1
      omega
  have hinv : SearchInv env data T m0 m0 data.length :=
    ⟨le_refl _, hm0le, le_refl _, hm0, Or.inl rfl, fun p _ h1 h2 => by omega⟩
  obtain ⟨r, hr, h0, _, h2, _, h4, h5⟩ :=
    search_loop_inv env data gas T hbuf hnul hgas hs m0 hone gas m0 data.length g hinv
      (by omega)
  exact ⟨r, hr, h0, h2, h4, h5⟩

theorem first_at_least_none (env : Env) (data : List Nat) (T : Int) (l : List Nat)
    (h : ∀ p ∈ l, ∀ a, tsAt env data p = some a → a < T) :
    first_at_least env data T l = data.length := by
  induction l with
  | nil => rfl
  | cons x xs ih =>
    unfold first_at_least
    have ihx := ih (fun p hp => h p (List.mem_cons_of_mem x hp))
    cases hx : tsAt env data x with
    | none => simpa using ihx
    | some a =>
      have := h x (List.mem_cons_self x xs) a hx
      simp only []
      rw [if_neg (by omega)]
      exact ihx

theorem first_at_least_some (env : Env) (data : List Nat) (T : Int) (l : List Nat) (r : Nat)
    (a : Int) (hl : l.Pairwise (fun x y => x < y)) (hr : r ∈ l) (ha : tsAt env data r = some a)
    (hT : T ≤ a) (h : ∀ p ∈ l, p < r → ∀ b, tsAt env data p = some b → b < T) :
    first_at_least env data T l = r := by
  induction l with
  | nil => simp at hr
  | cons x xs ih =>
    rw [List.pairwise_cons] at hl
    unfold first_at_least
    rcases List.mem_cons.mp hr with hrx | hrx
    · rw [← hrx, ha]
      simp only []
      rw [if_pos hT]
    · have hxr : x < r := hl.1 r hrx
      have ihx := ih hl.2 hrx (fun p hp => h p (List.mem_cons_of_mem x hp))
      cases hx : tsAt env data x with
      | none => simpa using ihx
      | some b =>
        have := h x (List.mem_cons_self x xs) hxr b hx
        simp only []
        rw [if_neg (by omega)]
        exact ihx

/-- What the search establishes about its result determines `lower_bound`. -/
theorem lower_bound_eq (env : Env) (data : List Nat) (T : Int) (m0 r : Nat) (hr : m0 ≤ r)
    (h4 : r = data.length ∨ (IsLineStart data r ∧ ∃ a, tsAt env data r = some a ∧ T ≤ a))
    (h5 : ∀ p, IsLineStart data p → m0 ≤ p → p < r → ∀ a, tsAt env data p = some a → a < T) :
    lower_bound env data T m0 = r := by
  unfold lower_bound
  have hmem : ∀ p, p ∈ (lineStarts data).filter (fun p => decide (m0 ≤ p)) ↔
      IsLineStart data p ∧ m0 ≤ p := by
    intro p
    rw [List.mem_filter, mem_lineStarts]
    simp
  rcases h4 with h4 | ⟨h4, a, ha, hT⟩
  · rw [h4]
    apply first_at_least_none
    intro p hp b hb
    have hp2 := (hmem p).mp hp
    exact h5 p hp2.1 hp2.2 (by have := hp2.1.1; omega) b hb
  · apply first_at_least_some env data T _ r a
      ((lineStarts_sorted data).filter _) ((hmem r).mpr ⟨h4, hr⟩) ha hT
    intro p hp hpr b hb
    have hp2 := (hmem p).mp hp
    exact h5 p hp2.1 hp2.2 hpr b hb

theorem filterMap_filter_length (l : List Nat) (f : Nat → Option Int) (Q : Int → Bool) :
    ((l.filterMap f).filter Q).length =
      (l.filter (fun p => match f p with
        | some a => Q a
        | none => false)).length := by
  induction l with
  | nil => rfl
  | cons x xs ih =>
    cases hx : f x with
    | none => simp [List.filterMap_cons, List.filter_cons, hx, ih]
    | some a =>
      cases hq : Q a <;> simp [List.filterMap_cons, List.filter_cons, hx, hq, ih]

/-- On a sorted file, the rank of the record that the search selects is the number of records
before the target, and the search answers the length exactly when every record is before the
target. -/
theorem rank_of_result (env : Env) (data : List Nat) (T : Int) (r : Nat)
    (hs : (timestamps env data).Pairwise (fun a b => a ≤ b))
    (h4 : r = data.length ∨ (IsLineStart data r ∧ ∃ a, tsAt env data r = some a ∧ T ≤ a))
    (h5 : ∀ p, IsLineStart data p → 0 ≤ p → p < r → ∀ a, tsAt env data p = some a → a < T) :
    record_rank env data r =
        ((timestamps env data).filter (fun a => decide (a < T))).length ∧
      (r = data.length ↔ ∀ a ∈ timestamps env data, a < T) := by
  constructor
  · unfold record_rank timestamps
    rw [filterMap_filter_length]
    congr 1
    apply List.filter_congr
    intro p hp
    have hps := mem_lineStarts.mp hp
    cases hts : tsAt env data p with
    | none => simp
    | some a =>
      simp only [Option.isSome_some, Bool.and_true]
      rw [decide_eq_decide]
      constructor
      · intro hpr
        exact h5 p hps (Nat.zero_le p) hpr a hts
      · intro haT
        by_contra hc
        rcases h4 with h | ⟨h, b, hb, hTb⟩
        · have := hps.1
          omega
        · have := sorted_pointwise env data hs h hps (by omega) hb hts
          omega
  · constructor
    · intro hr a ha
      obtain ⟨p, hp, hpa⟩ := List.mem_filterMap.mp ha
      have hps := mem_lineStarts.mp hp
      exact h5 p hps (Nat.zero_le p) (by have := hps.1; omega) a hpa
    · intro hall
      rcases h4 with h | ⟨h, b, hb, hTb⟩
      · exact h
      · have := hall b (List.mem_filterMap.mpr ⟨r, mem_lineStarts.mpr h, hb⟩)
        omega

/-- The search over the whole of a sorted file whose first line is a record, when no line
that fails to parse starts at offset 1. -/
theorem search_whole_file (env : Env) (data : List Nat) (gas : Nat) (T : Int) (g : Int)
    (hbuf : 1 < env.BUFSIZ) (hnul : NoNul data)
    (hfirst : data ≠ [] → (tsAt env data 0).isSome)
    (hone : IsLineStart data 1 → (tsAt env data 1).isSome)
    (hsorted : (timestamps env data).Pairwise (fun a b => a ≤ b))
    (hgas : data.length < gas) :
    ∃ r, search_by_time env data gas T 0 data.length g = some r ∧
      lower_bound env data T 0 = r ∧
      (r = data.length ∨ (IsLineStart data r ∧ ∃ a, tsAt env data r = some a ∧ T ≤ a)) ∧
      (∀ p, IsLineStart data p → 0 ≤ p → p < r → ∀ a, tsAt env data p = some a → a < T) := by
  have hm0 : 0 = data.length ∨ (IsLineStart data 0 ∧ (tsAt env data 0).isSome) := by
    by_cases h : 0 = data.length
    · exact Or.inl h
    · have hne : data ≠ [] := by
        intro hd
        rw [hd] at h
        exact h rfl
      exact Or.inr ⟨⟨by omega, Or.inl rfl⟩, hfirst hne⟩
  obtain ⟨r, hr, h0, _, h4, h5⟩ :=
    search_sorted env data gas T g hbuf hnul hgas hsorted 0 hm0 (fun _ => hone)
  exact ⟨r, hr, lower_bound_eq env data T 0 r h0 h4 h5, h4, h5⟩

/-! ## The copy loop and the lines of a file -/

theorem first_line_prefix (d : List Nat) : first_line d = d.take (first_line d).length := by
  induction d with
  | nil => rfl
  | cons b rest ih =>
    unfold first_line
    split
    · simp
    · simp only [List.length_cons, List.take_succ_cons]
      rw [← ih]

theorem copy_loop_spec (env : Env) (data : List Nat) (hbuf : 1 < env.BUFSIZ) :
    ∀ fuel b e out, e ≤ data.length → e - b < fuel →
      copy_loop env data fuel b e out = some (out ++ (data.drop b).take (e - b)) := by
  intro fuel
  induction fuel with
  | zero => intro b e _ _ h; omega
  | succ fuel ih =>
    intro b e out he hfuel
    unfold copy_loop
    by_cases hbe : b < e
    · rw [if_pos hbe]
      simp only []
      have hmin : MIN (env.BUFSIZ - 1) (e - b) = min (env.BUFSIZ - 1) (e - b) := by
        unfold MIN
        split <;> omega
      have hlen : (pread data b (MIN (env.BUFSIZ - 1) (e - b))).length =
          min (env.BUFSIZ - 1) (e - b) := by
        rw [pread_length, hmin]
        omega
      rw [if_pos (by rw [hlen]; omega)]
      rw [ih _ e _ he (by rw [hlen]; omega)]
      rw [hlen]
      congr 1
      rw [List.append_assoc]
      congr 1
      have hsplit : e - b = min (env.BUFSIZ - 1) (e - b) +
          (e - (b + min (env.BUFSIZ - 1) (e - b))) := by omega
      conv_rhs => rw [hsplit, List.take_add, List.drop_drop]
      rw [hmin]
      rfl
    · rw [if_neg hbe]
      rw [show e - b = 0 by omega]
      simp

theorem line_next_boundary (env : Env) (data : List Nat) (gas off : Nat)
    (hbuf : 1 < env.BUFSIZ) (hoff : off ≤ data.length) (hgas : data.length < gas) :
    ∃ r, line_next env data gas off = some r ∧ off ≤ r ∧ r ≤ data.length ∧
      (off < data.length → off < r) ∧ IsBoundary data r := by
  obtain ⟨r, hr, hch⟩ := line_next_loop_char env data hbuf gas off hoff (by omega)
  refine ⟨r, hr, ?_⟩
  rcases hch with ⟨i, h1, h2, h3, _⟩ | ⟨h1, _⟩
  · have := getElem?_some_lt h2
    subst h3
    exact ⟨by omega, by omega, fun _ => by omega, Or.inr (Or.inr (by simpa using h2))⟩
  · exact ⟨by omega, by omega, fun _ => by omega, Or.inl h1⟩

/-- The forward loop started at a line boundary stops at a line boundary, on any file. -/
theorem probe_fwd_boundary (env : Env) (data : List Nat) (gas off_n : Nat)
    (hbuf : 1 < env.BUFSIZ) (hgas : data.length < gas) :
    ∀ fuel p v q w, IsBoundary data p →
      probe_fwd env data gas off_n fuel p v = some (q, w) → IsBoundary data q := by
  intro fuel
  induction fuel with
  | zero =>
    intro p v q w _ h
    simp [probe_fwd] at h
  | succ fuel ih =>
    intro p v q w hp h
    unfold probe_fwd at h
    simp only [] at h
    by_cases hc : (read_time env data p v).1 = 0
    · rw [if_pos hc] at h
      have hlt := read_time_zero_lt env data p v hc
      obtain ⟨r, hr, _, _, _, hb⟩ := line_next_boundary env data gas p hbuf (by omega) hgas
      rw [hr] at h
      simp only [] at h
      by_cases hn : r < off_n
      · rw [if_pos hn] at h
        exact ih r _ q w hb h
      · rw [if_neg hn] at h
        cases h
        exact hb
    · rw [if_neg hc] at h
      cases h
      exact hp

/-- One round of the outer loop keeps `off_m` at a line boundary, on any file. -/
theorem search_step_boundary (env : Env) (data : List Nat) (gas : Nat) (t : Int)
    (hbuf : 1 < env.BUFSIZ) (hgas : data.length < gas) (m n : Nat) (v : Int)
    (hmn : m < n) (hn : n ≤ data.length) (hm : IsBoundary data m) (m1 n1 : Nat) (v1 : Int)
    (h : search_step env data gas t m n v = some (m1, n1, v1)) : IsBoundary data m1 := by
  unfold search_step at h
  cases h0 : line_head env data gas ((m + n) / 2) with
  | none => simp [h0] at h
  | some p0 =>
    rw [h0] at h
    simp only [] at h
    cases h1 : probe_back env data gas gas p0 v with
    | none => simp [h1] at h
    | some qa =>
      obtain ⟨q, a⟩ := qa
      rw [h1] at h
      simp only [] at h
      by_cases ht : t ≤ a
      · rw [if_pos ht] at h
        cases h
        exact hm
      · rw [if_neg ht] at h
        obtain ⟨p1, hp1, _, _, _, hb⟩ :=
          line_next_boundary env data gas ((m + n) / 2) hbuf (by omega) hgas
        rw [hp1] at h
        simp only [] at h
        cases h2 : probe_fwd env data gas n gas p1 a with
        | none => simp [h2] at h
        | some qw =>
          obtain ⟨q1, w⟩ := qw
          rw [h2] at h
          cases h
          exact probe_fwd_boundary env data gas n hbuf hgas gas p1 a m1 v1 hb h2

/-- The result of the search is a line boundary when the window starts at one, on any file. -/
theorem search_loop_boundary (env : Env) (data : List Nat) (gas : Nat) (t : Int)
    (hbuf : 1 < env.BUFSIZ) (hgas : data.length < gas) :
    ∀ fuel m n v r, n ≤ data.length → IsBoundary data m →
      search_loop env data gas t fuel m n v = some r → IsBoundary data r := by
  intro fuel
  induction fuel with
  | zero =>
    intro m n v r _ _ h
    simp [search_loop] at h
  | succ fuel ih =>
    intro m n v r hn hm h
    unfold search_loop at h
    by_cases hmn : m < n
    · rw [if_pos hmn] at h
      obtain ⟨m1, n1, v1, hs, _, _, h3, _⟩ :=
        search_step_bounds env data gas t hbuf hgas m n v hmn hn
      rw [hs] at h
      simp only [] at h
      exact ih m1 n1 v1 r (by omega)
        (search_step_boundary env data gas t hbuf hgas m n v hmn hn hm m1 n1 v1 hs) h
    · rw [if_neg hmn] at h
      cases h
      exact hm

/-! ## Where `read_time` starts to parse -/

theorem strchr_eq_some {s : List Nat} {c k : Nat} (hk : s[k]? = some c)
    (hbefore : ∀ j, j < k → s[j]? ≠ some c) : strchr s c = some k := by
  cases h : strchr s c with
  | none => exact absurd hk (strchr_none h k)
  | some k1 =>
    obtain ⟨h1, h2⟩ := strchr_some h
    by_cases hlt : k1 < k
    · exact absurd h1 (hbefore k1 hlt)
    · by_cases hgt : k < k1
      · exact absurd hk (h2 k hgt)
      · congr 1
        omega

theorem cstr_getElem?_eq (buf : List Nat) (n : Nat)
    (h : ∀ j, j < n → buf[j]? ≠ some 0) : ∀ j, j < n → (cstr buf)[j]? = buf[j]? := by
  induction buf generalizing n with
  | nil => intro j _; simp [cstr]
  | cons b rest ih =>
    intro j hj
    have hb : b ≠ 0 := by
      have := h 0 (by omega)
      simpa using this
    have hc : cstr (b :: rest) = b :: cstr rest := by
      simp [cstr, List.takeWhile_cons, hb]
    rw [hc]
    cases j with
    | zero => simp
    | succ j =>
      simp only [List.getElem?_cons_succ]
      exact ih (n - 1) (fun i hi => by
        have := h (i + 1) (by omega)
        simpa using this) j (by omega)

theorem first_line_getElem? (d : List Nat) (j : Nat) (hj : j < (first_line d).length) :
    (first_line d)[j]? = d[j]? := by
  conv_lhs => rw [ first_line_prefix d]
  rw [List.getElem?_take_of_lt hj]

/-- Function `read_time` in terms of the place where `strptime` starts. -/
theorem read_time_bufp (env : Env) (data : List Nat) (pos : Nat) (v : Int) :
    read_time env data pos v =
      if (pread data pos 39).length = 0 then (-1, v)
      else
        match env.strptime ((cstr (pread data pos 39)).drop (bufp_offset env data pos))
          tm_init with
        | none => (0, v)
        | some tm => (1, env.mktime (adjust_tm env.curr_tm tm)) := by
  unfold read_time bufp_offset
  simp only []
  by_cases hlen : (pread data pos 39).length = 0
  · rw [if_pos hlen, if_pos hlen]
  · rw [if_neg hlen, if_neg hlen]
    cases hw : env.web_log with
    | false => rfl
    | true =>
      cases hs : strchr (cstr (pread data pos 39)) 91 with
      | none => rfl
      | some k => rfl

/-- The first `'['` of a line, when it is among its first 39 bytes with no NUL byte before it,
is the `'['` that `strchr` finds in the buffer of `read_time`. -/
theorem strchr_window (data : List Nat) (pos k : Nat)
    (hk : strchr (first_line (data.drop pos)) 91 = some k) (hk39 : k < 39)
    (hnul : ∀ j, j < k → data[pos + j]? ≠ some 0) :
    strchr (cstr (pread data pos 39)) 91 = some k := by
  obtain ⟨h1, h2⟩ := strchr_some hk
  have hklt := getElem?_some_lt h1
  have hbuf : ∀ j, j ≤ k → (pread data pos 39)[j]? = data[pos + j]? := by
    intro j hj
    rw [pread_getElem?, if_pos (by omega)]
  have hline : ∀ j, j ≤ k → (first_line (data.drop pos))[j]? = data[pos + j]? := by
    intro j hj
    rw [first_line_getElem? _ j (by omega), List.getElem?_drop]
  have hcs : ∀ j, j < k + 1 → (cstr (pread data pos 39))[j]? = (pread data pos 39)[j]? := by
    apply cstr_getElem?_eq
    intro j hj
    rw [hbuf j (by omega)]
    by_cases hjk : j < k
    · exact hnul j hjk
    · have hjeq : j = k := by omega
      rw [hjeq, ← hline k (le_refl k), h1]
      simp
  apply strchr_eq_some
  · rw [hcs k (by omega), hbuf k (le_refl k), ← hline k (le_refl k)]
    exact h1
  · intro j hj
    rw [hcs j (by omega), hbuf j (by omega), ← hline j (by omega)]
    exact h2 j hj

/-! ## The two offsets of `cut_file` on a sorted file -/

/-- The two offsets of `cut_file` on a sorted file without NUL bytes whose first line is a
record, when no line that fails to parse starts at offset 1: they are the two lower bounds,
whatever `val_p` held at the start of the two searches. -/
theorem cut_offsets_records (env : Env) (data : List Nat) (gas : Nat) (f t : Int)
    (g1 g2 : Int) (hbuf : 1 < env.BUFSIZ) (hnul : NoNul data)
    (hfirst : data ≠ [] → (tsAt env data 0).isSome)
    (hone : IsLineStart data 1 → (tsAt env data 1).isSome)
    (hsorted : (timestamps env data).Pairwise (fun a b => a ≤ b))
    (hgas : data.length < gas) :
    cut_offsets env data gas f t g1 g2 =
      some (lower_bound env data f 0, lower_bound env data t (lower_bound env data f 0)) ∧
    (f = t → lower_bound env data t (lower_bound env data f 0) = lower_bound env data f 0) := by
  obtain ⟨r1, hr1, hlb1, h41, h51⟩ :=
    search_whole_file env data gas f g1 hbuf hnul hfirst hone hsorted hgas
  have hm1 : r1 = data.length ∨ (IsLineStart data r1 ∧ (tsAt env data r1).isSome) := by
    rcases h41 with h | ⟨h, a, ha, _⟩
    · exact Or.inl h
    · exact Or.inr ⟨h, by simp [ha]⟩
  obtain ⟨r2, hr2, h02, hle2, h42, h52⟩ :=
    search_sorted env data gas t g2 hbuf hnul hgas hsorted r1 hm1 (fun _ => hone)
  have hlb2 := lower_bound_eq env data t r1 r2 h02 h42 h52
  rw [hlb1, hlb2]
  constructor
  · unfold cut_offsets
    rw [hr1]
    simp only []
    rw [hr2]
  · intro hft
    by_contra hne
    have hlt : r1 < r2 := by omega
    rcases h41 with h | ⟨h, a, ha, hfa⟩
    · omega
    · have := h52 r1 h (le_refl r1) hlt a ha
      omega

/-! ## The window of the search when no unparseable line starts at offset 1 -/

/-- The backward loop on a file without NUL bytes, started at a line start: it stops at a
line start that is a record or is at most 1, and every line start it stepped over fails to
parse. -/
theorem probe_back_any (env : Env) (data : List Nat) (gas : Nat)
    (hbuf : 1 < env.BUFSIZ) (hnul : NoNul data) (hgas : data.length < gas) :
    ∀ fuel p v, IsLineStart data p → p < fuel →
      ∃ q a, probe_back env data gas fuel p v = some (q, a) ∧ IsLineStart data q ∧ q ≤ p ∧
        ((tsAt env data q).isSome ∨ q ≤ 1) ∧
        ∀ s, IsLineStart data s → q < s → s ≤ p → tsAt env data s = none := by
  intro fuel
  induction fuel with
  | zero => intro p _ _ h; omega
  | succ fuel ih =>
    intro p v hp hfuel
    unfold probe_back
    simp only []
    cases hts : tsAt env data p with
    | some a =>
      rw [tsAt_some env data p a hts v]
      rw [if_neg (by simp)]
      exact ⟨p, a, rfl, hp, le_refl p, Or.inl (by simp [hts]), fun s _ h1 h2 => by omega⟩
    | none =>
      rw [tsAt_none env data p hts hp.1 v]
      by_cases h1p : 1 < p
      · rw [if_pos ⟨h1p, rfl⟩]
        obtain ⟨q0, hq0, hle, hst, hmax⟩ :=
          line_head_start env data gas (p - 1) hbuf hnul (by have := hp.1; omega) hgas
        rw [hq0]
        simp only []
        obtain ⟨q, a, hq, hqs, hqle, hqrec, hnoise⟩ :=
          ih q0 v ⟨by have := hp.1; omega, hst⟩ (by omega)
        refine ⟨q, a, hq, hqs, by omega, hqrec, ?_⟩
        intro s hs h1 h2
        by_cases hsq : s ≤ q0
        · exact hnoise s hs h1 hsq
        · by_cases hsp : s = p
          · rw [hsp]; exact hts
          · have := hmax s hs.2 (by omega)
            omega
      · rw [if_neg (by simp [h1p])]
        exact ⟨p, v, rfl, hp, le_refl p, Or.inr (by omega), fun s _ h1 h2 => by omega⟩

/-- One round of the outer loop keeps `WindowInv`, on any file without NUL bytes in which no
line that fails to parse starts at offset 1. -/
theorem search_step_window (env : Env) (data : List Nat) (gas : Nat) (T : Int)
    (hbuf : 1 < env.BUFSIZ) (hnul : NoNul data) (hgas : data.length < gas)
    (hone : IsLineStart data 1 → (tsAt env data 1).isSome)
    (m n : Nat) (v : Int) (hinv : WindowInv env data m n) (hmn : m < n) :
    ∃ m1 n1 v1, search_step env data gas T m n v = some (m1, n1, v1) ∧
      WindowInv env data m1 n1 ∧ m ≤ m1 ∧ n1 ≤ n := by
  obtain ⟨h1, h2, h3, h4⟩ := hinv
  have hmst : AtLineStart data m := by
    rcases h3 with h | h | h
    · omega
    · exact Or.inl h
    · exact h.1.2
  have hm' : m = 0 ∨ (IsLineStart data m ∧ (tsAt env data m).isSome) := by
    rcases h3 with h | h | h
    · omega
    · exact Or.inl h
    · exact Or.inr h
  unfold search_step
  obtain ⟨p0, hp0, hle0, hst0, hmax⟩ :=
    line_head_start env data gas ((m + n) / 2) hbuf hnul (by omega) hgas
  rw [hp0]
  simp only []
  have hmp0 : m ≤ p0 := hmax m hmst (by omega)
  obtain ⟨q, a, hq, hqs, hqle, hqrec, hnoise⟩ :=
    probe_back_any env data gas hbuf hnul hgas gas p0 v ⟨by omega, hst0⟩ (by omega)
  rw [hq]
  simp only []
  have hmq : m ≤ q := by
    rcases hm' with h | ⟨h, hrec⟩
    · omega
    · by_contra hc
      rw [hnoise m h (by omega) hmp0] at hrec
      simp at hrec
  have hqrec2 : q = 0 ∨ (tsAt env data q).isSome := by
    rcases hqrec with h | h
    · exact Or.inr h
    · by_cases hq0 : q = 0
      · exact Or.inl hq0
      · have hq1 : q = 1 := by omega
        exact Or.inr (hq1 ▸ hone (hq1 ▸ hqs))
  by_cases ht : T ≤ a
  · rw [if_pos ht]
    exact ⟨m, q, a, rfl, ⟨hmq, by omega, Or.inr hm', Or.inr ⟨hqs.2, hqrec2⟩⟩, le_refl m,
      by omega⟩
  · rw [if_neg ht]
    obtain ⟨p1, hp1, hlt1, hle1, hb1, hmin⟩ :=
      line_next_start env data gas ((m + n) / 2) hbuf hnul (by omega) hgas
    rw [hp1]
    simp only []
    have hnrec : n = data.length ∨ (AtLineStart data n ∧ (tsAt env data n).isSome) := by
      rcases h4 with h | ⟨h, h0 | hrec⟩
      · exact Or.inl h
      · omega
      · exact Or.inr ⟨h, hrec⟩
    have hp1n : p1 ≤ n := by
      rcases hnrec with h | ⟨h, _⟩
      · omega
      · exact hmin n h (by omega)
    obtain ⟨q1, w, hq1, hpq1, hq1n, hq1rec, _⟩ :=
      probe_fwd_record env data gas n hbuf hnul hgas h2 hnrec gas p1 a hp1n hb1 (by omega)
    rw [hq1]
    simp only []
    exact ⟨q1, n, w, rfl, ⟨hq1n, h2, hq1rec.imp id Or.inr, h4⟩, by omega, le_refl n⟩

/-- After any number of rounds the window is ordered, on any file without NUL bytes in which
no line that fails to parse starts at offset 1. -/
theorem search_rounds_window (env : Env) (data : List Nat) (gas : Nat) (T : Int)
    (hbuf : 1 < env.BUFSIZ) (hnul : NoNul data) (hgas : data.length < gas)
    (hone : IsLineStart data 1 → (tsAt env data 1).isSome) :
    ∀ k m n v, WindowInv env data m n →
      ∃ m1 n1 v1, search_rounds env data gas T k m n v = some (m1, n1, v1) ∧
        WindowInv env data m1 n1 ∧ m ≤ m1 ∧ n1 ≤ n := by
  intro k
  induction k with
  | zero =>
    intro m n v hinv
    exact ⟨m, n, v, rfl, hinv, le_refl m, le_refl n⟩
  | succ k ih =>
    intro m n v hinv
    unfold search_rounds
    by_cases hmn : m < n
    · rw [if_pos hmn]
      obtain ⟨m1, n1, v1, hs, hinv1, hm1, hn1⟩ :=
        search_step_window env data gas T hbuf hnul hgas hone m n v hinv hmn
      rw [hs]
      simp only []
      obtain ⟨m2, n2, v2, hr, hinv2, hm2, hn2⟩ := ih m1 n1 v1 hinv1
      exact ⟨m2, n2, v2, hr, hinv2, by omega, by omega⟩
    · rw [if_neg hmn]
      exact ⟨m, n, v, rfl, hinv, le_refl m, le_refl n⟩

/-- The search ends with `off_m = off_n` under `WindowInv`, and its result can start the
next search. -/
theorem search_loop_window (env : Env) (data : List Nat) (gas : Nat) (T : Int)
    (hbuf : 1 < env.BUFSIZ) (hnul : NoNul data) (hgas : data.length < gas)
    (hone : IsLineStart data 1 → (tsAt env data 1).isSome) :
    ∀ fuel m n v, WindowInv env data m n → n - m < fuel →
      ∃ r, search_loop env data gas T fuel m n v = some r ∧
        WindowInv env data r data.length ∧ m ≤ r ∧ r ≤ n := by
  intro fuel
  induction fuel with
  | zero => intro m n _ _ h; omega
  | succ fuel ih =>
    intro m n v hinv hfuel
    unfold search_loop
    by_cases hmn : m < n
    · rw [if_pos hmn]
      obtain ⟨m1, n1, v1, hs, hinv1, hm1, hn1⟩ :=
        search_step_window env data gas T hbuf hnul hgas hone m n v hinv hmn
      obtain ⟨_, _, _, hs2, _, _, _, hlt⟩ :=
        search_step_bounds env data gas T hbuf hgas m n v hmn hinv.2.1
      rw [hs] at hs2
      cases hs2
      rw [hs]
      simp only []
      obtain ⟨r, hr, hinvr, hmr, hrn⟩ := ih m1 n1 v1 hinv1 (by omega)
      exact ⟨r, hr, hinvr, by omega, by omega⟩
    · rw [if_neg hmn]
      obtain ⟨h1, h2, _, h4⟩ := hinv
      have hmn2 : m = n := by omega
      refine ⟨m, rfl, ⟨by omega, le_refl _, ?_, Or.inl rfl⟩, le_refl m, by omega⟩
      rcases h4 with h | ⟨h, h0 | hrec⟩
      · exact Or.inl (by omega)
      · exact Or.inr (Or.inl (by omega))
      · by_cases hl : m = data.length
        · exact Or.inl hl
        · exact Or.inr (Or.inr ⟨⟨by omega, hmn2 ▸ h⟩, hmn2 ▸ hrec⟩)

/-- The window stays ordered in both searches of `cut_file`, on any file without NUL bytes in
which no line that fails to parse starts at offset 1: after any number of rounds
`off_m ≤ off_n`, `off_m` has not decreased and `off_n` has not increased. -/
theorem cut_file_windows_ordered (env : Env) (data : List Nat) (gas : Nat) (f t : Int)
    (g1 g2 : Int) (hbuf : 1 < env.BUFSIZ) (hnul : NoNul data) (hgas : data.length < gas)
    (hone : IsLineStart data 1 → (tsAt env data 1).isSome) :
    ∃ off_b, search_by_time env data gas f 0 data.length g1 = some off_b ∧
      (∀ k, ∃ m n v, search_rounds env data gas f k 0 data.length g1 = some (m, n, v) ∧
        m ≤ n ∧ n ≤ data.length) ∧
      (∀ k, ∃ m n v, search_rounds env data gas t k off_b data.length g2 = some (m, n, v) ∧
        off_b ≤ m ∧ m ≤ n ∧ n ≤ data.length) := by
  have hinv0 : WindowInv env data 0 data.length :=
    ⟨Nat.zero_le _, le_refl _, Or.inr (Or.inl rfl), Or.inl rfl⟩
  obtain ⟨b, hb, hinvb, _, _⟩ :=
    search_loop_window env data gas f hbuf hnul hgas hone gas 0 data.length g1 hinv0 (by omega)
  refine ⟨b, hb, ?_, ?_⟩
  · intro k
    obtain ⟨m, n, v, hr, hinv, _, hn⟩ :=
      search_rounds_window env data gas f hbuf hnul hgas hone k 0 data.length g1 hinv0
    exact ⟨m, n, v, hr, hinv.1, hn⟩
  · intro k
    obtain ⟨m, n, v, hr, hinv, hm, hn⟩ :=
      search_rounds_window env data gas t hbuf hnul hgas hone k b data.length g2 hinvb
    exact ⟨m, n, v, hr, hm, hinv.1, hn⟩
/-! ## The first `'['` of the buffer of `read_time` -/

/-- A byte of the C string in a buffer is that byte of the buffer, and it is not NUL. -/
theorem cstr_getElem?_lt (buf : List Nat) (j : Nat) (hj : j < (cstr buf).length) :
    (cstr buf)[j]? = buf[j]? ∧ buf[j]? ≠ some 0 := by
  have h1 : (cstr buf)[j]? = some ((cstr buf)[j]) := List.getElem?_eq_getElem hj
  have h2 := cstr_getElem? h1
  have hmem : (cstr buf)[j] ∈ cstr buf := List.getElem_mem hj
  have hne : (cstr buf)[j] ≠ 0 := by
    generalize (cstr buf)[j] = x at hmem
    have := List.mem_takeWhile_imp
      (show x ∈ buf.takeWhile (fun b => decide (b ≠ 0)) from hmem)
    simpa using this
  refine ⟨by rw [h1, h2], ?_⟩
  rw [h2]
  intro h
  exact hne (Option.some.inj h)

/-- What `strchr` finds in the buffer of `read_time` is the first `'['` among the 39 bytes
read, and no NUL byte stands before it. -/
theorem strchr_buffer_first (data : List Nat) (pos k : Nat)
    (hs : strchr (cstr (pread data pos 39)) 91 = some k) :
    k < 39 ∧ data[pos + k]? = some 91 ∧
      ∀ j, j < k → data[pos + j]? ≠ some 91 ∧ data[pos + j]? ≠ some 0 := by
  obtain ⟨h1, h2⟩ := strchr_some hs
  have hklen := getElem?_some_lt h1
  have hb := cstr_getElem? h1
  rw [pread_getElem?] at hb
  have hk39 : k < 39 := by
    by_contra hc
    rw [if_neg hc] at hb
    cases hb
  rw [if_pos hk39] at hb
  refine ⟨hk39, hb, ?_⟩
  intro j hj
  obtain ⟨h3, h4⟩ := cstr_getElem?_lt (pread data pos 39) j (by omega)
  rw [pread_getElem?, if_pos (by omega)] at h3 h4
  refine ⟨?_, h4⟩
  rw [← h3]
  exact h2 j hj

/-- The first `'['` among the 39 bytes read, when no NUL byte stands before it, is what
`strchr` finds in the buffer of `read_time`. -/
theorem strchr_buffer_of_first (data : List Nat) (pos k : Nat) (hk39 : k < 39)
    (hk : data[pos + k]? = some 91)
    (hbefore : ∀ j, j < k → data[pos + j]? ≠ some 91 ∧ data[pos + j]? ≠ some 0) :
    strchr (cstr (pread data pos 39)) 91 = some k := by
  have hbuf : ∀ j, j ≤ k → (pread data pos 39)[j]? = data[pos + j]? := by
    intro j hj
    rw [pread_getElem?, if_pos (by omega)]
  have hcs := cstr_getElem?_eq (pread data pos 39) (k + 1) (by
    intro j hj
    rw [hbuf j (by omega)]
    by_cases hjk : j < k
    · exact (hbefore j hjk).2
    · have : j = k := by omega
      rw [this, hk]
      simp)
  apply strchr_eq_some
  · rw [hcs k (by omega), hbuf k (by omega)]
    exact hk
  · intro j hj
    rw [hcs j (by omega), hbuf j (by omega)]
    exact (hbefore j hj).1

/-! ## The two rounds of the first search on `web_blank_first_two` -/

set_option maxRecDepth 20000 in
/-- Counterexample to C3 as stated, in three files.  (1) ISO format: `iso_blank_between` is
`iso_two_records` with a blank line inserted between its two records, at offset 22; the 39
bytes that `read_time` reads at the blank line parse, through the record after it, to
07:00:00, and the search for 06:00:00 returns 22, the offset of the blank line, while the
record of 07:00:00 that the search selects on the original (at 22 there) is at offset 23.
(2) Web access format: `web_short_between` is `web_two_records` with the line `x` inserted at
offset 37; `read_time` finds the `'['` of the record after it and parses, and the search for
02:00:00 returns 37, the offset of that line, not 39, where the record selected on the
original is.  (3) `web_blank_noise` is `web_blank_records`, whose first line is empty and
parses, with a line that does not parse inserted at offset 1; the parsed timestamps are the
same in both files, yet the search for 12:00:00 on 10 January returns 50, the record of
01:02:06 on that day, while the record selected on the original, of 11 January, is at 87. -/
theorem search_by_time_selects_other_line :
    (NoNul iso_two_records ∧ NoNul iso_blank_between ∧
      (∀ p ∈ lineStarts iso_two_records, (tsAt env_iso iso_two_records p).isSome) ∧
      timestamps env_iso iso_two_records = [feb1 5, feb1 7] ∧
      lineStarts iso_two_records = [0, 22] ∧
      iso_blank_between = iso_two_records.take 22 ++ bytes "\n" ++ iso_two_records.drop 22 ∧
      lineStarts iso_blank_between = [0, 22, 23] ∧
      iso_blank_between.drop 23 = iso_two_records.drop 22 ∧
      tsAt env_iso iso_blank_between 22 = some (feb1 7) ∧
      (∀ g, search_by_time env_iso iso_two_records 46 (feb1 6) 0 iso_two_records.length g =
        some 22) ∧
      (∀ g, search_by_time env_iso iso_blank_between 46 (feb1 6) 0 iso_blank_between.length g =
        some 22)) ∧
    (NoNul web_two_records ∧ NoNul web_short_between ∧
      (∀ p ∈ lineStarts web_two_records, (tsAt env_web web_two_records p).isSome) ∧
      timestamps env_web web_two_records = [jan 10 1 + 123, jan 10 3 + 123] ∧
      lineStarts web_two_records = [0, 37] ∧
      web_short_between = web_two_records.take 37 ++ bytes "x\n" ++ web_two_records.drop 37 ∧
      lineStarts web_short_between = [0, 37, 39] ∧
      web_short_between.drop 39 = web_two_records.drop 37 ∧
      tsAt env_web web_short_between 37 = some (jan 10 3 + 123) ∧
      (∀ g, search_by_time env_web web_two_records 78 (jan 10 2) 0 web_two_records.length g =
        some 37) ∧
      (∀ g, search_by_time env_web web_short_between 78 (jan 10 2) 0 web_short_between.length g =
        some 37)) ∧
    (NoNul web_blank_records ∧ NoNul web_blank_noise ∧
      (∀ p ∈ lineStarts web_blank_records, (tsAt env_web web_blank_records p).isSome) ∧
      timestamps env_web web_blank_records =
        [jan 10 1 + 126, jan 10 1 + 126, jan 11 0, jan 12 0, jan 13 0] ∧
      lineStarts web_blank_records = [0, 1, 38, 75, 112] ∧
      web_blank_noise = web_blank_records.take 1 ++
        bytes "host.example.org -[10/Jan/2006:01:02:65 +0000] x\n" ++ web_blank_records.drop 1 ∧
      lineStarts web_blank_noise = [0, 1, 50, 87, 124, 161] ∧
      web_blank_noise.drop 87 = web_blank_records.drop 38 ∧
      tsAt env_web web_blank_noise 1 = none ∧
      timestamps env_web web_blank_noise = timestamps env_web web_blank_records ∧
      tsAt env_web web_blank_noise 50 = some (jan 10 1 + 126) ∧ jan 10 1 + 126 < jan 10 12 ∧
      (∀ g, search_by_time env_web web_blank_records 199 (jan 10 12) 0 web_blank_records.length g =
        some 38) ∧
      (∀ g, search_by_time env_web web_blank_noise 199 (jan 10 12) 0 web_blank_noise.length g =
        some 50)) :=
  ⟨⟨by decide, by decide, by decide, by decide, by decide, by decide, by decide, by decide,
      by decide, fun _ => rfl, fun _ => rfl⟩,
    ⟨by decide, by decide, by decide, by decide, by decide, by decide, by decide, by decide,
      by decide, fun _ => rfl, fun _ => rfl⟩,
    ⟨by decide, by decide, by decide, by decide, by decide, by decide, by decide, by decide,
      by decide, by decide, by decide, by decide, fun _ => rfl, fun _ => rfl⟩⟩

/-- C3 as amended (unparseable-line tolerance). Let `orig` be a file of records: no NUL byte,
every line parses, timestamps do not decrease.  Let `data` be a file without NUL bytes that
has these records and further lines, blank or malformed, at whose start `read_time` returns
no timestamp, the records with the timestamps they have in `orig` (so `timestamps` agree);
its first line is a record and no line that fails to parse starts at offset 1 (the further
lines may stand anywhere else; a last line that is a record is a special case).  Then for
every target `T`, `search_by_time(T, 0, size)` on `data` returns the offset of the first
record whose timestamp is at least `T`, and `size` when there is none (`lower_bound`); the
search on `orig` returns the same for `orig`; and the two results are the same record: they
have the same rank among the records, and one is the size of its file exactly when the other
is. -/
theorem search_by_time_skips_noise (env : Env) (orig data : List Nat) (gas : Nat) (T : Int)
    (g : Int) (hbuf : 1 < env.BUFSIZ) (hnul0 : NoNul orig) (hnul : NoNul data)
    (hparse0 : ∀ p ∈ lineStarts orig, (tsAt env orig p).isSome)
    (hsorted0 : (timestamps env orig).Pairwise (fun a b => a ≤ b))
    (hsame : timestamps env data = timestamps env orig)
    (hfirst : data ≠ [] → (tsAt env data 0).isSome)
    (hone : IsLineStart data 1 → (tsAt env data 1).isSome)
    (hgas0 : orig.length < gas) (hgas : data.length < gas) :
    search_by_time env data gas T 0 data.length g = some (lower_bound env data T 0) ∧
    search_by_time env orig gas T 0 orig.length g = some (lower_bound env orig T 0) ∧
    record_rank env data (lower_bound env data T 0) =
      record_rank env orig (lower_bound env orig T 0) ∧
    (lower_bound env data T 0 = data.length ↔ lower_bound env orig T 0 = orig.length) := by
  have hsorted : (timestamps env data).Pairwise (fun a b => a ≤ b) := by
    rw [hsame]
    exact hsorted0
  obtain ⟨r, hr, hlb, h4, h5⟩ :=
    search_whole_file env data gas T g hbuf hnul hfirst hone hsorted hgas
  obtain ⟨r0, hr0, hlb0, h40, h50⟩ :=
    search_whole_file env orig gas T g hbuf hnul0
      (fun hne => hparse0 0 (mem_lineStarts.mpr
        ⟨List.length_pos.mpr hne, Or.inl rfl⟩))
      (fun h1 => hparse0 1 (mem_lineStarts.mpr h1)) hsorted0 hgas0
  obtain ⟨hrank, hend⟩ := rank_of_result env data T r hsorted h4 h5
  obtain ⟨hrank0, hend0⟩ := rank_of_result env orig T r0 hsorted0 h40 h50
  rw [hlb, hlb0]
  refine ⟨hr, hr0, ?_, ?_⟩
  · rw [hrank, hrank0, hsame]
  · rw [hend, hend0, hsame]

/-- Witness of C3 as amended: two records with a blank line and a malformed line between
them, neither of which parses, searched for 06:00:00 with chunks of 3 bytes; the answer is
offset 33, the start of the second record, as offset 18 is in the file of the two records
alone. -/
theorem search_by_time_skips_noise_witness :
    (1 < env_small.BUFSIZ ∧ NoNul log_two_records ∧ NoNul log_noise_between ∧
      (∀ p ∈ lineStarts log_two_records, (tsAt env_small log_two_records p).isSome) ∧
      (timestamps env_small log_two_records).Pairwise (fun a b => a ≤ b) ∧
      timestamps env_small log_noise_between = timestamps env_small log_two_records ∧
      (log_noise_between ≠ [] → (tsAt env_small log_noise_between 0).isSome) ∧
      (IsLineStart log_noise_between 1 → (tsAt env_small log_noise_between 1).isSome) ∧
      log_two_records.length < 51 ∧ log_noise_between.length < 51) ∧
    (lineStarts log_noise_between = [0, 18, 19, 33] ∧
      (lineStarts log_noise_between).map (tsAt env_small log_noise_between) =
        [some (feb1 5), none, none, some (feb1 7)] ∧
      lower_bound env_small log_noise_between (feb1 6) 0 = 33 ∧
      lower_bound env_small log_two_records (feb1 6) 0 = 18) ∧
    (search_by_time env_small log_noise_between 51 (feb1 6) 0 log_noise_between.length 0 =
        some (lower_bound env_small log_noise_between (feb1 6) 0) ∧
      search_by_time env_small log_two_records 51 (feb1 6) 0 log_two_records.length 0 =
        some (lower_bound env_small log_two_records (feb1 6) 0) ∧
      record_rank env_small log_noise_between (lower_bound env_small log_noise_between (feb1 6) 0) =
        record_rank env_small log_two_records (lower_bound env_small log_two_records (feb1 6) 0) ∧
      (lower_bound env_small log_noise_between (feb1 6) 0 = log_noise_between.length ↔
        lower_bound env_small log_two_records (feb1 6) 0 = log_two_records.length)) :=
  ⟨⟨by decide, by decide, by decide, by decide, by decide, by decide, by decide, by decide,
      by decide, by decide⟩, ⟨by decide, by decide, by decide, by decide⟩,
    search_by_time_skips_noise env_small log_two_records log_noise_between 51 (feb1 6) 0
      (by decide) (by decide) (by decide) (by decide) (by decide) (by decide) (by decide)
      (by decide) (by decide) (by decide)⟩

/-- C4, the code at a failing input: the first line of `log_noise_first` does not parse; the
search for 01:00:00 returns offset 0, the offset of that line, whatever `val_p` held at the
start, and not offset 2, the offset of the first record at or after the target. -/
theorem search_by_time_noise_first_line (g : Int) :
    search_by_time env_syslog log_noise_first 39 (feb1 1) 0 log_noise_first.length g = some 0 ∧
    lower_bound env_syslog log_noise_first (feb1 1) 0 = 2 ∧
    tsAt env_syslog log_noise_first 0 = none :=
  ⟨rfl, by decide, by decide⟩

/-- C5 (end never precedes start). For every file, whatever its bytes and whatever its lines
parse to, every pair of targets and every initial content of `val_p`, `cut_file` computes its
two offsets, and they satisfy `off_b ≤ off_e` (and `off_e ≤ size`). -/
theorem cut_offsets_ordered (env : Env) (data : List Nat) (gas : Nat) (f t : Int) (g1 g2 : Int)
    (hbuf : 1 < env.BUFSIZ) (hgas : data.length < gas) :
    ∃ off_b off_e, cut_offsets env data gas f t g1 g2 = some (off_b, off_e) ∧
      off_b ≤ off_e ∧ off_e ≤ data.length := by
  obtain ⟨b, hb, _, hbl⟩ :=
    search_loop_bounds env data gas f hbuf hgas gas 0 data.length g1 (Nat.zero_le _)
      (le_refl _) (by omega)
  obtain ⟨e, he, hbe, hel⟩ :=
    search_loop_bounds env data gas t hbuf hgas gas b data.length g2 hbl (le_refl _) (by omega)
  refine ⟨b, e, ?_, hbe, hel⟩
  unfold cut_offsets search_by_time
  rw [hb]
  simp only []
  rw [he]

/-- Witness of C5: a file whose first line does not parse, with the two targets in the wrong
order (`from` is 07:00:00, `to` is 01:00:00). -/
theorem cut_offsets_ordered_witness :
    (1 < env_small.BUFSIZ ∧ log_noise_first.length < 39) ∧
    cut_offsets env_small log_noise_first 39 (feb1 7) (feb1 1) 0 0 = some (20, 20) ∧
    ∃ off_b off_e, cut_offsets env_small log_noise_first 39 (feb1 7) (feb1 1) 0 0 =
        some (off_b, off_e) ∧ off_b ≤ off_e ∧ off_e ≤ log_noise_first.length :=
  ⟨⟨by decide, by decide⟩, by decide,
    cut_offsets_ordered env_small log_noise_first 39 (feb1 7) (feb1 1) 0 0 (by decide)
      (by decide)⟩

/-- C6 (year inference). When the parsed `struct tm` carries no year (`tm_year` is 0),
`adjust_tm` sets the year to the year of the reference clock if the parsed month is at most the
month of the clock, and to that year minus one otherwise. -/
theorem adjust_tm_infers_year (curr_tm tm : Tm) (h : tm.tm_year = 0) :
    (adjust_tm curr_tm tm).tm_year =
      if tm.tm_mon ≤ curr_tm.tm_mon then curr_tm.tm_year else curr_tm.tm_year - 1 := by
  unfold adjust_tm
  rw [if_pos h]
  by_cases hm : curr_tm.tm_mon < tm.tm_mon
  · rw [if_pos hm, if_neg (by omega)]
  · rw [if_neg hm, if_pos (by omega)]

/-- Witness of C6: with the clock in February 2006 (`tm_mon = 1`, `tm_year = 106`), a record of
December (`tm_mon = 11`) gets 2005 (`tm_year = 105`) and a record of January (`tm_mon = 0`)
gets 2006. -/
theorem adjust_tm_infers_year_witness :
    ((⟨0, 0, 0, 25, 11, 0, 0, 0, 0⟩ : Tm).tm_year = 0 ∧
      (adjust_tm clock_feb_2006 ⟨0, 0, 0, 25, 11, 0, 0, 0, 0⟩).tm_year = 105) ∧
    ((⟨0, 0, 0, 25, 0, 0, 0, 0, 0⟩ : Tm).tm_year = 0 ∧
      (adjust_tm clock_feb_2006 ⟨0, 0, 0, 25, 0, 0, 0, 0, 0⟩).tm_year = 106) :=
  ⟨⟨rfl, (adjust_tm_infers_year clock_feb_2006 ⟨0, 0, 0, 25, 11, 0, 0, 0, 0⟩ rfl).trans
      (by decide)⟩,
   ⟨rfl, (adjust_tm_infers_year clock_feb_2006 ⟨0, 0, 0, 25, 0, 0, 0, 0, 0⟩ rfl).trans
      (by decide)⟩⟩

/-- C7 (`line_next`). On a file without NUL bytes, for every chunk length `BUFSIZ - 1 > 0` and
every offset `off ≤ length`, `line_next(off)` returns `i + 1` for the smallest index `i ≥ off`
that holds `'\n'`, and the length when no byte at or after `off` is `'\n'`; so
`off < line_next(off) ≤ length` when `off < length`. -/
theorem line_next_spec (env : Env) (data : List Nat) (gas off : Nat)
    (hbuf : 1 < env.BUFSIZ) (hnul : NoNul data) (hoff : off ≤ data.length)
    (hgas : data.length < gas) :
    ∃ r, line_next env data gas off = some r ∧
      ((∃ i, off ≤ i ∧ data[i]? = some 10 ∧ (∀ j, off ≤ j → j < i → data[j]? ≠ some 10) ∧
          r = i + 1) ∨
       ((∀ j, off ≤ j → data[j]? ≠ some 10) ∧ r = data.length)) ∧
      (off < data.length → off < r ∧ r ≤ data.length) := by
  obtain ⟨r, hr, hch⟩ := line_next_loop_char env data hbuf gas off hoff (by omega)
  refine ⟨r, hr, ?_, ?_⟩
  · rcases hch with ⟨i, h1, h2, h3, h4⟩ | ⟨h1, h2⟩
    · exact Or.inl ⟨i, h1, h2, h4 hnul, h3⟩
    · exact Or.inr ⟨h2 hnul, h1⟩
  · intro hlt
    rcases hch with ⟨i, h1, h2, h3, _⟩ | ⟨h1, _⟩
    · have := getElem?_some_lt h2
      omega
    · omega

/-- Witness of C7: chunks of 3 bytes, the newline is in the second chunk. -/
theorem line_next_spec_witness :
    (1 < env_small.BUFSIZ ∧ NoNul (bytes "abcde\nfg") ∧ 1 ≤ (bytes "abcde\nfg").length ∧
      (bytes "abcde\nfg").length < 9) ∧
    line_next env_small (bytes "abcde\nfg") 9 1 = some 6 ∧
    ∃ r, line_next env_small (bytes "abcde\nfg") 9 1 = some r ∧
      ((∃ i, 1 ≤ i ∧ (bytes "abcde\nfg")[i]? = some 10 ∧
          (∀ j, 1 ≤ j → j < i → (bytes "abcde\nfg")[j]? ≠ some 10) ∧ r = i + 1) ∨
       ((∀ j, 1 ≤ j → (bytes "abcde\nfg")[j]? ≠ some 10) ∧ r = (bytes "abcde\nfg").length)) ∧
      (1 < (bytes "abcde\nfg").length → 1 < r ∧ r ≤ (bytes "abcde\nfg").length) :=
  ⟨⟨by decide, by decide, by decide, by decide⟩, by decide,
    line_next_spec env_small (bytes "abcde\nfg") 9 1 (by decide) (by decide) (by decide)
      (by decide)⟩

/-- C8 (`line_head`). On a file without NUL bytes, for every chunk length `BUFSIZ - 1 > 0`
(shorter than a line or not) and every offset `off ≤ length`, `line_head(off)` returns `i + 1`
for the largest index `i < off` that holds `'\n'`, and 0 when no byte before `off` is `'\n'`;
so `line_head(off) ≤ off` and no `'\n'` lies in `[line_head(off), off)`. -/
theorem line_head_spec (env : Env) (data : List Nat) (gas off : Nat)
    (hbuf : 1 < env.BUFSIZ) (hnul : NoNul data) (hoff : off ≤ data.length)
    (hgas : data.length < gas) :
    ∃ r, line_head env data gas off = some r ∧
      ((∃ i, i < off ∧ data[i]? = some 10 ∧ (∀ j, i < j → j < off → data[j]? ≠ some 10) ∧
          r = i + 1) ∨
       ((∀ j, j < off → data[j]? ≠ some 10) ∧ r = 0)) ∧
      r ≤ off ∧ (∀ j, r ≤ j → j < off → data[j]? ≠ some 10) := by
  obtain ⟨r, hr, hch⟩ := line_head_loop_char data gas off (env.BUFSIZ - 1) (by omega) hoff
    (by omega)
  refine ⟨r, hr, ?_, ?_, ?_⟩
  · rcases hch with ⟨i, h1, h2, h3, h4⟩ | ⟨h1, h2⟩
    · exact Or.inl ⟨i, h1, h2, h4 hnul, h3⟩
    · exact Or.inr ⟨h2 hnul, h1⟩
  · rcases hch with ⟨i, h1, _, h3, _⟩ | ⟨h1, _⟩ <;> omega
  · intro j hj1 hj2
    rcases hch with ⟨i, h1, _, h3, h4⟩ | ⟨h1, h2⟩
    · exact h4 hnul j (by omega) hj2
    · exact h2 hnul j hj2

/-- Witness of C8: chunks of 3 bytes, the line before offset 8 is 5 bytes long. -/
theorem line_head_spec_witness :
    (1 < env_small.BUFSIZ ∧ NoNul (bytes "ab\ncdefgh\n") ∧ 8 ≤ (bytes "ab\ncdefgh\n").length ∧
      (bytes "ab\ncdefgh\n").length < 11) ∧
    line_head env_small (bytes "ab\ncdefgh\n") 11 8 = some 3 ∧
    ∃ r, line_head env_small (bytes "ab\ncdefgh\n") 11 8 = some r ∧
      ((∃ i, i < 8 ∧ (bytes "ab\ncdefgh\n")[i]? = some 10 ∧
          (∀ j, i < j → j < 8 → (bytes "ab\ncdefgh\n")[j]? ≠ some 10) ∧ r = i + 1) ∨
       ((∀ j, j < 8 → (bytes "ab\ncdefgh\n")[j]? ≠ some 10) ∧ r = 0)) ∧
      r ≤ 8 ∧ (∀ j, r ≤ j → j < 8 → (bytes "ab\ncdefgh\n")[j]? ≠ some 10) :=
  ⟨⟨by decide, by decide, by decide, by decide⟩, by decide,
    line_head_spec env_small (bytes "ab\ncdefgh\n") 11 8 (by decide) (by decide) (by decide)
      (by decide)⟩

/-- Counterexample to C9 as stated: on the one-byte file `"a"`, `line_next(0)` returns 1, which
is not 0 and does not follow a `'\n'` byte (byte 0 is `'a'`). -/
theorem line_next_not_after_newline :
    line_next env_syslog (bytes "a") 2 0 = some 1 ∧ 1 ≠ 0 ∧ (bytes "a")[1 - 1]? ≠ some 10 := by
  decide

/-- C9 as amended (true line starts). For every file, whatever its bytes, and every offset
`off ≤ length`: `line_head(off)` is 0 or immediately follows a `'\n'` byte, and `line_next(off)`
immediately follows a `'\n'` byte or is the length of the file. -/
theorem locator_results_are_boundaries (env : Env) (data : List Nat) (gas off : Nat)
    (hbuf : 1 < env.BUFSIZ) (hoff : off ≤ data.length) (hgas : data.length < gas) :
    ∃ h n, line_head env data gas off = some h ∧ line_next env data gas off = some n ∧
      (h = 0 ∨ (0 < h ∧ data[h - 1]? = some 10)) ∧
      (n = data.length ∨ (0 < n ∧ data[n - 1]? = some 10)) := by
  obtain ⟨h, hh, hch⟩ := line_head_loop_char data gas off (env.BUFSIZ - 1) (by omega) hoff
    (by omega)
  obtain ⟨n, hn, hcn⟩ := line_next_loop_char env data hbuf gas off hoff (by omega)
  refine ⟨h, n, hh, hn, ?_, ?_⟩
  · rcases hch with ⟨i, _, h2, h3, _⟩ | ⟨h1, _⟩
    · right
      subst h3
      exact ⟨by omega, by simpa using h2⟩
    · exact Or.inl h1
  · rcases hcn with ⟨i, _, h2, h3, _⟩ | ⟨h1, _⟩
    · right
      subst h3
      exact ⟨by omega, by simpa using h2⟩
    · exact Or.inl h1

/-- Witness of C9 as amended, on a file with a NUL byte. -/
theorem locator_results_are_boundaries_witness :
    (1 < env_small.BUFSIZ ∧ 4 ≤ [97, 10, 0, 98, 10, 99].length ∧
      [97, 10, 0, 98, 10, 99].length < 7) ∧
    ∃ h n, line_head env_small [97, 10, 0, 98, 10, 99] 7 4 = some h ∧
      line_next env_small [97, 10, 0, 98, 10, 99] 7 4 = some n ∧
      (h = 0 ∨ (0 < h ∧ [97, 10, 0, 98, 10, 99][h - 1]? = some 10)) ∧
      (n = [97, 10, 0, 98, 10, 99].length ∨ (0 < n ∧ [97, 10, 0, 98, 10, 99][n - 1]? = some 10)) :=
  ⟨⟨by decide, by decide, by decide⟩,
    locator_results_are_boundaries env_small [97, 10, 0, 98, 10, 99] 7 4 (by decide) (by decide)
      (by decide)⟩

/-- Counterexample to C10 as stated: on the five-line log, the search for 09:00:00 in the
window `[0, 1)` returns 18, the start of the second line, which is beyond `high = 1`. -/
theorem search_by_time_leaves_window :
    search_by_time env_syslog log5 91 (feb1 9) 0 1 0 = some 18 ∧ ¬ (18 ≤ 1) ∧
      0 ≤ 1 ∧ 1 ≤ log5.length := by
  decide

/-- C10 as amended (the result stays in the file, and in the window when the window ends at
the end of the file). For every file, every target, every window `low ≤ high ≤ length` and
every initial content of `val_p`, `search_by_time(target, low, high)` returns an offset `r`
with `low ≤ r ≤ length`; so `low ≤ r ≤ high` when `high = length`, as in both calls of
`cut_file`. -/
theorem search_by_time_in_file (env : Env) (data : List Nat) (gas : Nat) (t : Int)
    (low high : Nat) (g : Int) (hbuf : 1 < env.BUFSIZ) (hgas : data.length < gas)
    (hlow : low ≤ high) (hhigh : high ≤ data.length) :
    ∃ r, search_by_time env data gas t low high g = some r ∧ low ≤ r ∧ r ≤ data.length ∧
      (high = data.length → r ≤ high) := by
  obtain ⟨r, hr, h1, h2⟩ :=
    search_loop_bounds env data gas t hbuf hgas gas low high g (by omega) hhigh (by omega)
  exact ⟨r, hr, h1, h2, fun h => by omega⟩

/-- Witness of C10 as amended, on the window of the counterexample. -/
theorem search_by_time_in_file_witness :
    (1 < env_syslog.BUFSIZ ∧ log5.length < 91 ∧ 0 ≤ 1 ∧ 1 ≤ log5.length) ∧
    ∃ r, search_by_time env_syslog log5 91 (feb1 9) 0 1 0 = some r ∧ 0 ≤ r ∧ r ≤ log5.length ∧
      (1 = log5.length → r ≤ 1) :=
  ⟨⟨by decide, by decide, by decide, by decide⟩,
    search_by_time_in_file env_syslog log5 91 (feb1 9) 0 1 0 (by decide) (by decide) (by decide)
      (by decide)⟩

/-- C11, the code at a failing input: on `log_header`, whose first line does not parse and
holds the middle of the file, with `from` 04:00:00 and `to` 06:00:00, the first probe of each
search parses nothing and the target is compared with the initial content of `val_p`.  With
0 in `val_p` `cut_file` writes the record of 05:00:00, which is the line in range; with a
content of 05:00:00 it writes the whole file; with a large content it writes nothing. -/
theorem cut_file_depends_on_val_p :
    tsAt env_syslog log_header 0 = none ∧
    lines_in_range env_syslog log_header (feb1 4) (feb1 6) = bytes "Feb  1 05:00:00 a\n" ∧
    cut_file env_syslog log_header 61 (feb1 4) (feb1 6) 0 0 =
      some (bytes "Feb  1 05:00:00 a\n") ∧
    cut_file env_syslog log_header 61 (feb1 4) (feb1 6) (feb1 5) (feb1 5) = some log_header ∧
    cut_file env_syslog log_header 61 (feb1 4) (feb1 6) 140737488347136 140737488347136 =
      some [] := by
  decide

/-- Counterexample to C12 as stated: the line `web_long` contains a `'['`, at index 44, but
under the web access format `read_time` starts to parse at byte 0 of the line, not at byte 45,
and reports that the line does not parse, although the bytes after the `'['` do. -/
theorem read_time_bracket_beyond_buffer :
    strchr (first_line (web_long.drop 0)) 91 = some 44 ∧ env_web.web_log = true ∧
    bufp_offset env_web web_long 0 = 0 ∧ read_time env_web web_long 0 0 = (0, 0) ∧
    (env_web.strptime (web_long.drop 45) tm_init).isSome := by
  decide

/-- C12 as amended (web access delimiter skip). Under the web access format, for every line
whose first `'['` is among the first 39 bytes of the line, with no NUL byte before it,
`read_time` starts to parse at the byte immediately after that `'['`; under every other
format it starts to parse at byte 0, on every line and at every offset.  What `strptime` is
given are the bytes of the 39-byte buffer from that place on. -/
theorem read_time_parse_start (env : Env) (data : List Nat) (pos : Nat) (v : Int) :
    (env.web_log = true → ∀ k, strchr (first_line (data.drop pos)) 91 = some k → k < 39 →
      (∀ j, j < k → data[pos + j]? ≠ some 0) → bufp_offset env data pos = k + 1) ∧
    (env.web_log = false → bufp_offset env data pos = 0) ∧
    read_time env data pos v =
      if (pread data pos 39).length = 0 then (-1, v)
      else
        match env.strptime ((cstr (pread data pos 39)).drop (bufp_offset env data pos))
          tm_init with
        | none => (0, v)
        | some tm => (1, env.mktime (adjust_tm env.curr_tm tm)) := by
  refine ⟨?_, ?_, read_time_bufp env data pos v⟩
  · intro hw k hk hk39 hnul
    unfold bufp_offset
    rw [hw, strchr_window data pos k hk hk39 hnul]
    rfl
  · intro hw
    unfold bufp_offset
    rw [hw]
    rfl

/-- Witness of C12 as amended.  Web access format: the line
`10.0.0.1 - - [10/Jan/2006:01:02:03 +0000] ...` has its `'['` at index 13; it is parsed from
`10/Jan/2006:01:02:03` on and yields 2006-01-10 01:02:03 (`tm_year = 106`, `tm_mon = 0`).
Syslog format: the record `Feb  1 05:00:00 h app[7]: x` has a `'['` at index 21 and is
parsed from byte 0 on, to 05:00:00 on 1 February.  ISO format: the web access line is parsed
from byte 0 on and does not parse. -/
theorem read_time_parse_start_witness :
    ((env_web.web_log = true ∧ strchr (first_line (web_line.drop 0)) 91 = some 13 ∧ 13 < 39 ∧
        ∀ j, j < 13 → web_line[0 + j]? ≠ some 0) ∧
      bufp_offset env_web web_line 0 = 13 + 1 ∧
      (cstr (pread web_line 0 39)).drop 14 = bytes "10/Jan/2006:01:02:03 +000" ∧
      env_web.strptime ((cstr (pread web_line 0 39)).drop 14) tm_init =
        some ⟨3, 2, 1, 10, 0, 106, 0, 0, 0⟩ ∧
      read_time env_web web_line 0 0 = (1, mktime_model ⟨3, 2, 1, 10, 0, 106, 0, 0, 0⟩)) ∧
    ((env_syslog.web_log = false ∧ strchr (first_line (log_bracket.drop 0)) 91 = some 21) ∧
      bufp_offset env_syslog log_bracket 0 = 0 ∧
      (cstr (pread log_bracket 0 39)).drop 0 = bytes "Feb  1 05:00:00 h app[7]: x\n" ∧
      read_time env_syslog log_bracket 0 0 = (1, feb1 5)) ∧
    ((env_iso.web_log = false ∧ strchr (first_line (web_line.drop 0)) 91 = some 13) ∧
      bufp_offset env_iso web_line 0 = 0 ∧
      env_iso.strptime ((cstr (pread web_line 0 39)).drop 0) tm_init = none ∧
      read_time env_iso web_line 0 0 = (0, 0)) :=
  ⟨⟨⟨by decide, by decide, by decide, by decide⟩,
      (read_time_parse_start env_web web_line 0 0).1 (by decide) 13 (by decide) (by decide)
        (by decide),
      by decide, by decide, by decide⟩,
    ⟨⟨by decide, by decide⟩, (read_time_parse_start env_syslog log_bracket 0 0).2.1 (by decide),
      by decide, by decide⟩,
    ⟨⟨by decide, by decide⟩, (read_time_parse_start env_iso web_line 0 0).2.1 (by decide),
      by decide, by decide⟩⟩

/-- C14 (termination for all window sizes). For every file, whatever its bytes, every outcome
of the timestamp parser, every target, every window `low ≤ high ≤ length` (of 0, 1, 2 or more
bytes) and every initial content of `val_p`: `search_by_time` returns; each retry of the
backward loop (taken when `off_p > 1` and `read_time` returned 0) replaces `off_p` by a
strictly smaller offset; each step of the forward loop (taken when `read_time` returned 0)
replaces `off_p` by a strictly larger offset, at most the length; and each round of the outer
loop strictly decreases `off_n - off_m`. -/
theorem search_by_time_terminates (env : Env) (data : List Nat) (gas : Nat) (t : Int)
    (low high : Nat) (g : Int) (hbuf : 1 < env.BUFSIZ) (hgas : data.length < gas)
    (hlow : low ≤ high) (hhigh : high ≤ data.length) :
    (∃ r, search_by_time env data gas t low high g = some r) ∧
    (∀ fuel off_p v, 1 < off_p → (read_time env data off_p v).1 = 0 →
      ∃ q, line_head env data gas (off_p - 1) = some q ∧ q < off_p ∧
        probe_back env data gas (fuel + 1) off_p v =
          probe_back env data gas fuel q (read_time env data off_p v).2) ∧
    (∀ fuel off_n off_p v, (read_time env data off_p v).1 = 0 →
      ∃ q, line_next env data gas off_p = some q ∧ off_p < q ∧ q ≤ data.length ∧
        probe_fwd env data gas off_n (fuel + 1) off_p v =
          if q < off_n then probe_fwd env data gas off_n fuel q (read_time env data off_p v).2
          else some (q, (read_time env data off_p v).2)) ∧
    (∀ m n v, m < n → n ≤ data.length →
      ∃ m1 n1 v1, search_step env data gas t m n v = some (m1, n1, v1) ∧
        (n1 : Int) - (m1 : Int) < (n : Int) - (m : Int)) := by
  refine ⟨?_, ?_, ?_, ?_⟩
  · obtain ⟨r, hr, _, _⟩ :=
      search_loop_bounds env data gas t hbuf hgas gas low high g (by omega) hhigh (by omega)
    exact ⟨r, hr⟩
  · intro fuel off_p v h1 h0
    have hlt := read_time_zero_lt env data off_p v h0
    obtain ⟨q, hq, hle⟩ := line_head_le env data gas (off_p - 1) hbuf (by omega) hgas
    refine ⟨q, hq, by omega, ?_⟩
    conv_lhs => unfold probe_back
    simp only []
    rw [if_pos ⟨h1, h0⟩, hq]
  · intro fuel off_n off_p v h0
    have hlt := read_time_zero_lt env data off_p v h0
    obtain ⟨q, hq, _, hle, hgt⟩ := line_next_gt env data gas off_p hbuf (by omega) hgas
    refine ⟨q, hq, hgt hlt, hle, ?_⟩
    conv_lhs => unfold probe_fwd
    simp only []
    rw [if_pos h0, hq]
  · intro m n v hmn hn
    obtain ⟨m1, n1, v1, hs, h1, _, h3, h4⟩ :=
      search_step_bounds env data gas t hbuf hgas m n v hmn hn
    exact ⟨m1, n1, v1, hs, by omega⟩

/-- Witness of C14: the window `[0, 2)` of two bytes on a file whose first line does not
parse; the search returns 2. -/
theorem search_by_time_terminates_witness :
    (1 < env_small.BUFSIZ ∧ log_noise_first.length < 39 ∧ 0 ≤ 2 ∧ 2 ≤ log_noise_first.length) ∧
    search_by_time env_small log_noise_first 39 (feb1 6) 0 2 0 = some 2 ∧
    ((∃ r, search_by_time env_small log_noise_first 39 (feb1 6) 0 2 0 = some r) ∧
    (∀ fuel off_p v, 1 < off_p → (read_time env_small log_noise_first off_p v).1 = 0 →
      ∃ q, line_head env_small log_noise_first 39 (off_p - 1) = some q ∧ q < off_p ∧
        probe_back env_small log_noise_first 39 (fuel + 1) off_p v =
          probe_back env_small log_noise_first 39 fuel q
            (read_time env_small log_noise_first off_p v).2) ∧
    (∀ fuel off_n off_p v, (read_time env_small log_noise_first off_p v).1 = 0 →
      ∃ q, line_next env_small log_noise_first 39 off_p = some q ∧ off_p < q ∧
        q ≤ log_noise_first.length ∧
        probe_fwd env_small log_noise_first 39 off_n (fuel + 1) off_p v =
          if q < off_n then probe_fwd env_small log_noise_first 39 off_n fuel q
            (read_time env_small log_noise_first off_p v).2
          else some (q, (read_time env_small log_noise_first off_p v).2)) ∧
    (∀ m n v, m < n → n ≤ log_noise_first.length →
      ∃ m1 n1 v1, search_step env_small log_noise_first 39 (feb1 6) m n v = some (m1, n1, v1) ∧
        (n1 : Int) - (m1 : Int) < (n : Int) - (m : Int))) :=
  ⟨⟨by decide, by decide, by decide, by decide⟩, by decide,
    search_by_time_terminates env_small log_noise_first 39 (feb1 6) 0 2 0 (by decide)
      (by decide) (by decide) (by decide)⟩

set_option maxRecDepth 8000 in
/-- C15, the code at a failing input: `web_blank_first_more` has no NUL byte.  In the first
search of `cut_file`, for 2006-01-10 12:00:00 and whatever `val_p` held at the start, the
window is `off_m = 0`, `off_n = 1` after two rounds and `off_m = 50`, `off_n = 1` after the
third round, so `off_m ≤ off_n` does not hold and the loop ends with `off_m` different from
`off_n`. -/
theorem search_window_crosses (g : Int) :
    NoNul web_blank_first_more ∧
    search_rounds env_web web_blank_first_more 125 (jan 10 12) 2 0
      web_blank_first_more.length g = some (0, 1, jan 11 0) ∧
    search_rounds env_web web_blank_first_more 125 (jan 10 12) 3 0
      web_blank_first_more.length g =
        some (50, 1, mktime_model ⟨6, 2, 1, 10, 0, 106, 0, 0, 0⟩) ∧
    ¬ (50 ≤ 1) ∧
    search_by_time env_web web_blank_first_more 125 (jan 10 12) 0
      web_blank_first_more.length g = some 50 :=
  ⟨by decide, rfl, rfl, by decide, rfl⟩

/-- Counterexample to C16 as stated: `log_broken_line` and `log_broken_line_other` have the
same first line, `Feb  1`, and differ in the second line only, yet `read_time` at offset 0
returns 1 with the timestamp 05:00:00 on the first file and 0 on the second; and under the
web access format, on `web_bracket_next`, the `'['` after which parsing starts at offset 0 is
byte 2 of the file, a byte of the second line (the first line has 2 bytes). -/
theorem read_time_reads_next_line :
    first_line (log_broken_line.drop 0) = first_line (log_broken_line_other.drop 0) ∧
    read_time env_syslog log_broken_line 0 0 = (1, feb1 5) ∧
    read_time env_syslog log_broken_line_other 0 0 = (0, 0) ∧
    (first_line (web_bracket_next.drop 0)).length = 2 ∧
    bufp_offset env_web web_bracket_next 0 = 3 ∧
    read_time env_web web_bracket_next 0 0 = (1, mktime_model ⟨3, 2, 1, 10, 0, 106, 0, 0, 0⟩) := by
  decide

/-- C16 as amended (what a record is read from). For every file and every offset `p`, the
outcome of `read_time` at `p` (the return value, the timestamp, and under the web access
format the place after the `'['` where parsing starts) depends only on the 39 bytes of the
file from offset `p` on: two files that agree on the offsets `p ≤ i < p + 39` give the same
outcome, so changing bytes at or after `p + 39` never changes it, whereas bytes of later
lines within these 39 bytes can.  Parsing starts after a `'['` under the web access format
only, and that `'['` is the first `'['` among these 39 bytes, with no NUL byte before it:
no byte of the file between `p` and it is a `'['` or a NUL byte; and conversely, under the
web access format parsing starts after the first `'['` among the 39 bytes when no NUL byte
stands before it.  What `strptime` is given are the bytes of the 39-byte buffer from the
place where parsing starts. -/
theorem read_time_depends_on_window (env : Env) (d1 d2 : List Nat) (p : Nat) (v : Int)
    (hsame : ∀ i, p ≤ i → i < p + 39 → d1[i]? = d2[i]?) :
    read_time env d1 p v = read_time env d2 p v ∧
    bufp_offset env d1 p = bufp_offset env d2 p ∧
    (0 < bufp_offset env d1 p →
      env.web_log = true ∧ bufp_offset env d1 p ≤ 39 ∧
      d1[p + (bufp_offset env d1 p - 1)]? = some 91 ∧
      ∀ j, j < bufp_offset env d1 p - 1 → d1[p + j]? ≠ some 91 ∧ d1[p + j]? ≠ some 0) ∧
    (env.web_log = true → ∀ k, k < 39 → d1[p + k]? = some 91 →
      (∀ j, j < k → d1[p + j]? ≠ some 91 ∧ d1[p + j]? ≠ some 0) →
      bufp_offset env d1 p = k + 1) ∧
    read_time env d1 p v =
      if (pread d1 p 39).length = 0 then (-1, v)
      else
        match env.strptime ((cstr (pread d1 p 39)).drop (bufp_offset env d1 p)) tm_init with
        | none => (0, v)
        | some tm => (1, env.mktime (adjust_tm env.curr_tm tm)) := by
  have hwin : pread d1 p 39 = pread d2 p 39 := by
    apply List.ext_getElem?
    intro j
    rw [pread_getElem?, pread_getElem?]
    by_cases hj : j < 39
    · rw [if_pos hj, if_pos hj]
      exact hsame (p + j) (by omega) (by omega)
    · rw [if_neg hj, if_neg hj]
  refine ⟨?_, ?_, ?_, ?_, read_time_bufp env d1 p v⟩
  · unfold read_time
    rw [hwin]
  · unfold bufp_offset
    rw [hwin]
  · intro hpos
    unfold bufp_offset at hpos ⊢
    cases hw : env.web_log with
    | false =>
      rw [hw] at hpos
      simp at hpos
    | true =>
      cases hs : strchr (cstr (pread d1 p 39)) 91 with
      | none =>
        rw [hw, hs] at hpos
        simp at hpos
      | some k =>
        obtain ⟨hk39, hk, hbefore⟩ := strchr_buffer_first d1 p k hs
        simp only [if_true, Nat.add_sub_cancel]
        exact ⟨trivial, by omega, hk, hbefore⟩
  · intro hw k hk39 hk hbefore
    unfold bufp_offset
    rw [hw, strchr_buffer_of_first d1 p k hk39 hk hbefore]
    rfl

/-- Witness of C16 as amended: a web access line followed by a second line, and the same
line followed by another second line; `read_time` at offset 0 gives 2006-01-10 01:02:03 on
both, parsing from index 14 on, after the `'['` at index 13, the first of the file. -/
theorem read_time_depends_on_window_witness :
    (∀ i, 0 ≤ i → i < 0 + 39 → (web_line ++ bytes "another\n")[i]? = (web_line ++ bytes "x\n")[i]?) ∧
    (read_time env_web (web_line ++ bytes "another\n") 0 0 =
        (1, mktime_model ⟨3, 2, 1, 10, 0, 106, 0, 0, 0⟩) ∧
      bufp_offset env_web (web_line ++ bytes "another\n") 0 = 14 ∧
      strchr (web_line ++ bytes "another\n") 91 = some 13) ∧
    (read_time env_web (web_line ++ bytes "another\n") 0 0 =
        read_time env_web (web_line ++ bytes "x\n") 0 0 ∧
      bufp_offset env_web (web_line ++ bytes "another\n") 0 =
        bufp_offset env_web (web_line ++ bytes "x\n") 0 ∧
      (0 < bufp_offset env_web (web_line ++ bytes "another\n") 0 →
        env_web.web_log = true ∧
        bufp_offset env_web (web_line ++ bytes "another\n") 0 ≤ 39 ∧
        (web_line ++ bytes "another\n")[0 + (bufp_offset env_web (web_line ++ bytes "another\n") 0 - 1)]? =
          some 91 ∧
        ∀ j, j < bufp_offset env_web (web_line ++ bytes "another\n") 0 - 1 →
          (web_line ++ bytes "another\n")[0 + j]? ≠ some 91 ∧
            (web_line ++ bytes "another\n")[0 + j]? ≠ some 0) ∧
      (env_web.web_log = true → ∀ k, k < 39 →
        (web_line ++ bytes "another\n")[0 + k]? = some 91 →
        (∀ j, j < k → (web_line ++ bytes "another\n")[0 + j]? ≠ some 91 ∧
          (web_line ++ bytes "another\n")[0 + j]? ≠ some 0) →
        bufp_offset env_web (web_line ++ bytes "another\n") 0 = k + 1) ∧
      read_time env_web (web_line ++ bytes "another\n") 0 0 =
        if (pread (web_line ++ bytes "another\n") 0 39).length = 0 then (-1, 0)
        else
          match env_web.strptime
            ((cstr (pread (web_line ++ bytes "another\n") 0 39)).drop
              (bufp_offset env_web (web_line ++ bytes "another\n") 0)) tm_init with
          | none => (0, 0)
          | some tm => (1, env_web.mktime (adjust_tm env_web.curr_tm tm))) :=
  ⟨by decide, ⟨by decide, by decide, by decide⟩,
    read_time_depends_on_window env_web (web_line ++ bytes "another\n") (web_line ++ bytes "x\n") 0 0
      (by decide)⟩

/-- Counterexample to C17 as stated: the streams `a\nb` and `\0\nb` have the same length and
their only `'\n'` at index 1, yet `line_next(0)` returns 2 on the first and 3 on the second;
the streams `\na\nb` and `\n\0\nb` have their `'\n'` at indices 0 and 2, yet `line_head(4)`
returns 3 on the first and 1 on the second. -/
theorem locators_depend_on_nul :
    ([97, 10, 98].length = [0, 10, 98].length ∧
      ∀ i, i < 3 → (([97, 10, 98] : List Nat)[i]? = some 10 ↔
        ([0, 10, 98] : List Nat)[i]? = some 10)) ∧
    line_next env_syslog [97, 10, 98] 4 0 = some 2 ∧
    line_next env_syslog [0, 10, 98] 4 0 = some 3 ∧
    ([10, 97, 10, 98].length = [10, 0, 10, 98].length ∧
      ∀ i, i < 4 → (([10, 97, 10, 98] : List Nat)[i]? = some 10 ↔
        ([10, 0, 10, 98] : List Nat)[i]? = some 10)) ∧
    line_head env_syslog [10, 97, 10, 98] 5 4 = some 3 ∧
    line_head env_syslog [10, 0, 10, 98] 5 4 = some 1 := by
  decide

/-- C17 as amended (boundary location depends only on where the newlines are). For every two
byte streams without NUL bytes, of equal length, that have `'\n'` at exactly the same
positions (their other bytes may be any values but NUL), every chunk length `BUFSIZ - 1 > 0`
and every offset `off ≤ length`, `line_next(off)` returns the same offset on both streams and
`line_head(off)` returns the same offset on both streams. -/
theorem locators_depend_on_newlines (env : Env) (d1 d2 : List Nat) (gas off : Nat)
    (hbuf : 1 < env.BUFSIZ) (hnul1 : NoNul d1) (hnul2 : NoNul d2)
    (hlen : d1.length = d2.length)
    (hnl : ∀ i, i < d1.length → (d1[i]? = some 10 ↔ d2[i]? = some 10))
    (hoff : off ≤ d1.length) (hgas : d1.length < gas) :
    (∃ r, line_next env d1 gas off = some r ∧ line_next env d2 gas off = some r) ∧
    (∃ r, line_head env d1 gas off = some r ∧ line_head env d2 gas off = some r) := by
  have h12 : ∀ i, d1[i]? = some 10 → d2[i]? = some 10 := fun i h =>
    (hnl i (getElem?_some_lt h)).mp h
  have h21 : ∀ i, d2[i]? = some 10 → d1[i]? = some 10 := fun i h =>
    (hnl i (by have := getElem?_some_lt h; omega)).mpr h
  constructor
  · obtain ⟨r1, hr1, hc1⟩ := line_next_loop_char env d1 hbuf gas off hoff (by omega)
    obtain ⟨r2, hr2, hc2⟩ := line_next_loop_char env d2 hbuf gas off (by omega) (by omega)
    refine ⟨r1, hr1, ?_⟩
    show line_next_loop env d2 gas off = some r1
    rw [hr2]
    congr 1
    rcases hc1 with ⟨i1, a1, b1, c1, e1⟩ | ⟨a1, b1⟩
    · rcases hc2 with ⟨i2, a2, b2, c2, e2⟩ | ⟨a2, b2⟩
      · have hle : i1 ≤ i2 := by
          by_contra hc
          exact e1 hnul1 i2 a2 (by omega) (h21 i2 b2)
        have hge : i2 ≤ i1 := by
          by_contra hc
          exact e2 hnul2 i1 a1 (by omega) (h12 i1 b1)
        omega
      · exact absurd (h12 i1 b1) (b2 hnul2 i1 a1)
    · rcases hc2 with ⟨i2, a2, b2, c2, e2⟩ | ⟨a2, b2⟩
      · exact absurd (h21 i2 b2) (b1 hnul1 i2 a2)
      · omega
  · obtain ⟨r1, hr1, hc1⟩ := line_head_loop_char d1 gas off (env.BUFSIZ - 1) (by omega) hoff
      (by omega)
    obtain ⟨r2, hr2, hc2⟩ := line_head_loop_char d2 gas off (env.BUFSIZ - 1) (by omega)
      (by omega) (by omega)
    refine ⟨r1, hr1, ?_⟩
    show line_head_loop d2 gas off (env.BUFSIZ - 1) = some r1
    rw [hr2]
    congr 1
    rcases hc1 with ⟨i1, a1, b1, c1, e1⟩ | ⟨a1, b1⟩
    · rcases hc2 with ⟨i2, a2, b2, c2, e2⟩ | ⟨a2, b2⟩
      · have hle : i1 ≤ i2 := by
          by_contra hc
          exact e2 hnul2 i1 (by omega) a1 (h12 i1 b1)
        have hge : i2 ≤ i1 := by
          by_contra hc
          exact e1 hnul1 i2 (by omega) a2 (h21 i2 b2)
        omega
      · exact absurd (h12 i1 b1) (b2 hnul2 i1 a1)
    · rcases hc2 with ⟨i2, a2, b2, c2, e2⟩ | ⟨a2, b2⟩
      · exact absurd (h21 i2 b2) (b1 hnul1 i2 a2)
      · omega

/-- Witness of C17 as amended: two streams of 9 bytes with `'\n'` at indices 2 and 8, chunks
of 3 bytes, offset 4; `line_next` returns 9 and `line_head` returns 3 on both. -/
theorem locators_depend_on_newlines_witness :
    (1 < env_small.BUFSIZ ∧ NoNul (bytes "ab\ncdefg\n") ∧ NoNul (bytes "xy\n12345\n") ∧
      (bytes "ab\ncdefg\n").length = (bytes "xy\n12345\n").length ∧
      (∀ i, i < (bytes "ab\ncdefg\n").length →
        ((bytes "ab\ncdefg\n")[i]? = some 10 ↔ (bytes "xy\n12345\n")[i]? = some 10)) ∧
      4 ≤ (bytes "ab\ncdefg\n").length ∧ (bytes "ab\ncdefg\n").length < 10) ∧
    (line_next env_small (bytes "ab\ncdefg\n") 10 4 = some 9 ∧
      line_head env_small (bytes "ab\ncdefg\n") 10 4 = some 3) ∧
    ((∃ r, line_next env_small (bytes "ab\ncdefg\n") 10 4 = some r ∧
        line_next env_small (bytes "xy\n12345\n") 10 4 = some r) ∧
      (∃ r, line_head env_small (bytes "ab\ncdefg\n") 10 4 = some r ∧
        line_head env_small (bytes "xy\n12345\n") 10 4 = some r)) :=
  ⟨⟨by decide, by decide, by decide, by decide, by decide, by decide, by decide⟩,
    ⟨by decide, by decide⟩,
    locators_depend_on_newlines env_small (bytes "ab\ncdefg\n") (bytes "xy\n12345\n") 10 4
      (by decide) (by decide) (by decide) (by decide) (by decide) (by decide) (by decide)⟩

/-- Counterexample to C18 as stated: under the ISO format, which has a year field, the line
`1900-03-01 00:00:00 x` parses to the year 1900, that is `tm_year = 0`, and `adjust_tm`
changes the year to 2005 (`tm_year = 105`, the clock being in February 2006), so that
`read_time` yields 2005-03-01 00:00:00. -/
theorem adjust_tm_changes_year_1900 :
    env_iso.strptime (bytes "1900-03-01 00:00:00 x\n") tm_init =
      some ⟨0, 0, 0, 1, 2, 0, 0, 0, 0⟩ ∧
    adjust_tm clock_feb_2006 ⟨0, 0, 0, 1, 2, 0, 0, 0, 0⟩ = ⟨0, 0, 0, 1, 2, 105, 0, 0, 0⟩ ∧
    read_time env_iso (bytes "1900-03-01 00:00:00 x\n") 0 0 =
      (1, mktime_model ⟨0, 0, 0, 1, 2, 105, 0, 0, 0⟩) := by
  decide

/-- C18 as amended (year inference and the other fields). For every calendar time whose year
is not 1900 (`tm_year` is not 0, the value that stands for an absent year), as a format with
a year field yields for every other year, `adjust_tm` leaves the year and every other field
unchanged; and for every calendar time, with or without a year, `adjust_tm` changes no field
other than the year. -/
theorem adjust_tm_frame (curr_tm tm : Tm) :
    (tm.tm_year ≠ 0 → adjust_tm curr_tm tm = tm) ∧
    adjust_tm curr_tm tm = { tm with tm_year := (adjust_tm curr_tm tm).tm_year } := by
  unfold adjust_tm
  constructor
  · intro h
    rw [if_neg h]
  · by_cases h : tm.tm_year = 0
    · rw [if_pos h]
      by_cases hm : curr_tm.tm_mon < tm.tm_mon
      · rw [if_pos hm]
      · rw [if_neg hm]
    · rw [if_neg h]

/-- Witness of C18 as amended: the ISO line `2006-01-10 01:02:03` parses to `tm_year = 106`
and is left as it is; a syslog line of December gets the year 2005 and keeps its other
fields. -/
theorem adjust_tm_frame_witness :
    (env_iso.strptime (bytes "2006-01-10 01:02:03 x\n") tm_init =
        some ⟨3, 2, 1, 10, 0, 106, 0, 0, 0⟩ ∧
      (⟨3, 2, 1, 10, 0, 106, 0, 0, 0⟩ : Tm).tm_year ≠ 0 ∧
      adjust_tm clock_feb_2006 ⟨3, 2, 1, 10, 0, 106, 0, 0, 0⟩ =
        ⟨3, 2, 1, 10, 0, 106, 0, 0, 0⟩) ∧
    (env_syslog.strptime (bytes "Dec 25 01:02:03 x\n") tm_init =
        some ⟨3, 2, 1, 25, 11, 0, 0, 0, 0⟩ ∧
      adjust_tm clock_feb_2006 ⟨3, 2, 1, 25, 11, 0, 0, 0, 0⟩ =
        ⟨3, 2, 1, 25, 11, 105, 0, 0, 0⟩) :=
  ⟨⟨by decide, by decide,
      (adjust_tm_frame clock_feb_2006 ⟨3, 2, 1, 10, 0, 106, 0, 0, 0⟩).1 (by decide)⟩,
    ⟨by decide,
      ((adjust_tm_frame clock_feb_2006 ⟨3, 2, 1, 25, 11, 0, 0, 0, 0⟩).2).trans (by decide)⟩⟩

/-- C19 (only whole lines are written). For every file, whatever its bytes and whatever its
lines parse to, every `from` and `to` and every initial content of `val_p`: each of the two
offsets that `cut_file` computes is 0, or the length of the file, or immediately follows a
`'\n'` byte, and the bytes written are those from `off_b` up to `off_e`; so the output starts
at a line start and ends at a line end or at the end of the file. -/
theorem cut_file_whole_lines (env : Env) (data : List Nat) (gas : Nat) (f t : Int)
    (g1 g2 : Int) (hbuf : 1 < env.BUFSIZ) (hgas : data.length < gas) :
    ∃ off_b off_e, cut_offsets env data gas f t g1 g2 = some (off_b, off_e) ∧
      (off_b = 0 ∨ off_b = data.length ∨ (0 < off_b ∧ data[off_b - 1]? = some 10)) ∧
      (off_e = 0 ∨ off_e = data.length ∨ (0 < off_e ∧ data[off_e - 1]? = some 10)) ∧
      cut_file env data gas f t g1 g2 = some ((data.drop off_b).take (off_e - off_b)) := by
  obtain ⟨b, hb, _, hbl⟩ :=
    search_loop_bounds env data gas f hbuf hgas gas 0 data.length g1 (Nat.zero_le _)
      (le_refl _) (by omega)
  obtain ⟨e, he, hbe, hel⟩ :=
    search_loop_bounds env data gas t hbuf hgas gas b data.length g2 hbl (le_refl _) (by omega)
  have hbb : IsBoundary data b :=
    search_loop_boundary env data gas f hbuf hgas gas 0 data.length g1 b (le_refl _)
      (Or.inr (Or.inl rfl)) hb
  have heb : IsBoundary data e :=
    search_loop_boundary env data gas t hbuf hgas gas b data.length g2 e (le_refl _) hbb he
  have hform : ∀ r, IsBoundary data r →
      (r = 0 ∨ r = data.length ∨ (0 < r ∧ data[r - 1]? = some 10)) := by
    intro r hr
    rcases hr with h | h | h
    · exact Or.inr (Or.inl h)
    · exact Or.inl h
    · by_cases h0 : r = 0
      · exact Or.inl h0
      · exact Or.inr (Or.inr ⟨by omega, h⟩)
  have hoff : cut_offsets env data gas f t g1 g2 = some (b, e) := by
    unfold cut_offsets search_by_time
    rw [hb]
    simp only []
    rw [he]
  refine ⟨b, e, hoff, hform b hbb, hform e heb, ?_⟩
  unfold cut_file
  rw [hoff]
  simp only []
  rw [copy_loop_spec env data hbuf gas b e [] hel (by omega), List.nil_append]

/-- Witness of C19: a file whose first line does not parse; what is written starts at
offset 0 and ends at offset 20, after the newline of the first record. -/
theorem cut_file_whole_lines_witness :
    (1 < env_small.BUFSIZ ∧ log_noise_first.length < 39) ∧
    cut_offsets env_small log_noise_first 39 (feb1 1) (feb1 6) 0 0 = some (0, 20) ∧
    ∃ off_b off_e, cut_offsets env_small log_noise_first 39 (feb1 1) (feb1 6) 0 0 =
        some (off_b, off_e) ∧
      (off_b = 0 ∨ off_b = log_noise_first.length ∨
        (0 < off_b ∧ log_noise_first[off_b - 1]? = some 10)) ∧
      (off_e = 0 ∨ off_e = log_noise_first.length ∨
        (0 < off_e ∧ log_noise_first[off_e - 1]? = some 10)) ∧
      cut_file env_small log_noise_first 39 (feb1 1) (feb1 6) 0 0 =
        some ((log_noise_first.drop off_b).take (off_e - off_b)) :=
  ⟨⟨by decide, by decide⟩, by decide,
    cut_file_whole_lines env_small log_noise_first 39 (feb1 1) (feb1 6) 0 0 (by decide)
      (by decide)⟩

end Logcut
